import Mathlib

/-!
Verification of the Informer form library (informer.js and the module
variant embedded in readme.md).

The repository contains two variants of the library:
* a module (`var Informer = (function () ...)`) that builds the form-value
  tree by colon-path grouping (`groupValues`, `buildNestedObject`,
  `mergeObjects`) — modelled in namespace `Mod`;
* an older constructor (`function Informer(params)`) that builds the tree
  by a group / parent-group fixpoint (`gatherTheValues` with
  `loopOnElements`, `addElementToValues`, `displayErrors`) — modelled in
  namespace `Old`.

JavaScript objects are modelled as insertion-ordered association lists
from string keys to values (`JVal`); property read is first-match lookup,
property write updates the binding in place or appends a fresh binding at
the end, exactly as JS object semantics for string keys.
-/

/-- A JavaScript value as used by the library: every value stored in a
form-value tree is either a string (an input's `value`) or a nested
object. -/
inductive JVal where
  | str (s : String)
  | obj (fields : List (String × JVal))
deriving Repr

/-- JS property read `o[k]`: first binding of `k`, `none` models
`undefined`. -/
def lookupKey : List (String × JVal) → String → Option JVal
  | [], _ => none
  | (k', v) :: rest, k => if k' = k then some v else lookupKey rest k

/-- JS property write `o[k] = v`: overwrite the existing binding in place
(keeping its position) or append a fresh binding at the end. -/
def setKey : List (String × JVal) → String → JVal → List (String × JVal)
  | [], k, v => [(k, v)]
  | (k', v') :: rest, k, v =>
    if k' = k then (k', v) :: rest else (k', v') :: setKey rest k v

/-- JS truthiness of a property read: `undefined` and `""` are falsy,
every object and every non-empty string is truthy. -/
def truthyVal : Option JVal → Bool
  | none => false
  | some (.str s) => s ≠ ""
  | some (.obj _) => true

/-- All leaf strings of a value, in tree order. -/
def leavesV : JVal → List String
  | .str s => [s]
  | .obj [] => []
  | .obj ((_, v) :: rest) => leavesV v ++ leavesV (.obj rest)

/-- All keys of a value at every depth, in tree order. -/
def deepKeysV : JVal → List String
  | .str _ => []
  | .obj [] => []
  | .obj ((k, v) :: rest) => k :: (deepKeysV v ++ deepKeysV (.obj rest))

/-- An attribute value as stored in an element record: the extractor
writes `getAttribute(a) || false`, so the field holds either the sentinel
`false` or the attribute string. -/
inductive Attr where
  | absent
  | str (s : String)
deriving Repr, DecidableEq

/-- JS truthiness of a stored attribute field: the sentinel `false` and
the empty string are falsy. -/
def truthyA : Attr → Bool
  | .absent => false
  | .str s => s ≠ ""

/-- Coercion of a stored attribute field to an object key, as JS does
when the field is used in `o[field]`: the sentinel `false` becomes the
literal key `"false"`. -/
def keyOfAttr : Attr → String
  | .absent => "false"
  | .str s => s

/-- Model of `getAttribute(a) || false`: `null` (attribute missing) and the empty
string collapse to the sentinel `false`. -/
def attrOrFalse : Option String → Attr
  | none => .absent
  | some s => if s = "" then .absent else .str s

/-- Character-list core of JS `String.prototype.split` with a
single-character separator. -/
def splitCharAux (sep : Char) : List Char → List (List Char)
  | [] => [[]]
  | c :: rest =>
    match splitCharAux sep rest with
    | [] => [[]]
    | g :: gs => if c = sep then [] :: g :: gs else (c :: g) :: gs

/-- JS `s.split(sep)` for a single-character separator: `"a:b"` becomes
`["a", "b"]`, `""` becomes `[""]`, `":"` becomes `["", ""]`. -/
def splitChar (sep : Char) (s : String) : List String :=
  (splitCharAux sep s.data).map (fun l => String.mk l)



namespace Mod

/-!
The module variant (second half of informer.js; the readme.md variant is
the same code with a larger `conf`).  The value pipeline is
`gatherTheValues = groupValues ∘ elemsToObjs`.
-/

/-- A DOM input-like element as the module reads it: its `value` property
and its attribute list (`getAttribute` returns `none` when the attribute
is missing). -/
structure DomElem where
  value : String
  attrs : List (String × String)
deriving Repr

/-- Model of `elem.getAttribute(a)`. -/
def DomElem.getAttr (e : DomElem) (a : String) : Option String :=
  (e.attrs.find? (fun p => p.1 = a)).map (fun p => p.2)

/-- Model of `elem.hasAttribute(a)`. -/
def DomElem.hasAttr (e : DomElem) (a : String) : Bool :=
  (e.attrs.find? (fun p => p.1 = a)).isSome

/-- The record `elemToObject` builds for one element: `value` plus each
name in `value_attributes = ['name', 'group']`, each read as
`getAttribute(attr) || false`. -/
structure ValObj where
  value : String
  name : Attr
  group : Attr
deriving Repr

/-- Source `elemToObject(elem)` specialised to the default `value_attributes`
list `['name', 'group']`. -/
def elemToObject (e : DomElem) : ValObj :=
  { value := e.value
    name := attrOrFalse (e.getAttr "name")
    group := attrOrFalse (e.getAttr "group") }

/-- Source `buildNestedObject(keys, end_val)`: wrap `end_val` under the key path
`keys`.  In the source, the `keys.length == 1` arm tests `keys[0] in ret`
on the freshly created empty object `ret`, which is always false, so the
arm reduces to `ret[keys[0]] = end_val`.  The source diverges on an empty
`keys` array; that case is unreachable because `split(':')` never returns
an empty array (see `splitOn_ne_nil`). -/
def buildNestedObject : List String → JVal → List (String × JVal)
  | [], _ => []
  | [k], v => setKey [] k v
  | k :: ks, v => setKey [] k (.obj (buildNestedObject ks v))

/-- Source `mergeObjects(obj1, obj2)`: for each own key of `obj2` in order, if
the existing value is truthy with constructor `Object` and the incoming
value has constructor `Object`, merge recursively; otherwise the incoming
value replaces the existing binding. -/
def mergeObjects : List (String × JVal) → List (String × JVal) → List (String × JVal)
  | o1, [] => o1
  | o1, (k, v2) :: rest =>
    match lookupKey o1 k, v2 with
    | some (.obj f1), .obj f2 =>
      mergeObjects (setKey o1 k (.obj (mergeObjects f1 f2))) rest
    | _, _ => mergeObjects (setKey o1 k v2) rest
termination_by _ o2 => sizeOf o2
decreasing_by
  all_goals simp_wf
  all_goals omega

/-- Source `groupValues(val_objs)`: fold the records into the accumulating tree.
A record with a truthy `group` is split on `':'`, wrapped, and merged; a
record with a falsy `group` writes directly at the root. -/
def groupValues (val_objs : List ValObj) : List (String × JVal) :=
  val_objs.foldl
    (fun vals_struct vo =>
      if truthyA vo.group then
        mergeObjects vals_struct
          (buildNestedObject (splitChar ':' (keyOfAttr vo.group))
            (.obj (setKey [] (keyOfAttr vo.name) (.str vo.value))))
      else
        setKey vals_struct (keyOfAttr vo.name) (.str vo.value))
    []

/-- A form: its attribute list and its input-like descendants, one list
per entry of `input_types = ['input', 'select', 'textarea']`, each list
in document order (the DOM query order of `elemsToObjs` and
`clearFormValues`). -/
structure Form where
  attrs : List (String × String)
  elemsByTag : List (List DomElem)
deriving Repr

/-- Model of `form.getAttribute(a)`. -/
def Form.getAttr (f : Form) (a : String) : Option String :=
  (f.attrs.find? (fun p => p.1 = a)).map (fun p => p.2)

/-- Source `elemsToObjs(form)`: every matching element in kind-list order, each
converted by `elemToObject`. -/
def elemsToObjs (form : Form) : List ValObj :=
  (form.elemsByTag.flatten).map elemToObject

/-- Source `gatherTheValues(form)` (the `last_form_called` side effect is state
threading outside the value pipeline and is not part of the result). -/
def gatherTheValues (form : Form) : List (String × JVal) :=
  groupValues (elemsToObjs form)

/-- Spec-side definition, following the spec's words for Strategy A:
"build a singly-nested structure `{name: value}` wrapped by each path
segment from innermost to outermost". -/
def nestSegments (ks : List String) (v : JVal) : JVal :=
  ks.foldr (fun k acc => .obj [(k, acc)]) v

/-- A JS value that can sit in a configuration slot: a string, a function
(such as the default `JSON.stringify`), `null`, or a boolean. -/
inductive ConfVal where
  | str (s : String)
  | fn (f : JVal → JVal)
  | nul
  | boolean (b : Bool)

/-- JS truthiness of a configuration value. -/
def truthyCV : ConfVal → Bool
  | .str s => s ≠ ""
  | .fn _ => true
  | .nul => false
  | .boolean b => b

/-- JS coercion of a configuration value to an object key or attribute
name (only the `.str` case arises with the shipped defaults). -/
def cvKey : ConfVal → String
  | .str s => s
  | .fn _ => "function"
  | .nul => "null"
  | .boolean b => if b then "true" else "false"

mutual

/-- Model of `JSON.stringify` on a form-value tree (escaping of special characters
inside strings is not modelled; no claim depends on it). -/
def jsonString : JVal → String
  | .str s => "\"" ++ s ++ "\""
  | .obj fs => "\x7b" ++ jsonFields fs ++ "\x7d"

/-- Comma-separated serialization of an object's fields. -/
def jsonFields : List (String × JVal) → String
  | [] => ""
  | [(k, v)] => "\"" ++ k ++ "\":" ++ jsonString v
  | (k, v) :: rest => "\"" ++ k ++ "\":" ++ jsonString v ++ "," ++ jsonFields rest

end

/-- The configuration object of the readme.md module variant.  Every slot
holds a JS value; `setConf` can overwrite any recognized slot. -/
structure Config where
  elem_attr_trigger : ConfVal
  elem_attr_callback : ConfVal
  elem_attr_fixed : ConfVal
  data_transform_func : ConfVal
  unnamed_form_key : ConfVal
  log : ConfVal

/-- The default configuration (`var conf = ...`). -/
def defaultConf : Config :=
  { elem_attr_trigger := .str "action"
    elem_attr_callback := .str "onreturn"
    elem_attr_fixed := .str "disabled"
    data_transform_func := .fn (fun v => .str (jsonString v))
    unnamed_form_key := .nul
    log := .boolean false }

/-- The configuration keys `Utils.sieve` recognizes: the fields of
`conf`. -/
def recognizedConfKeys : List String :=
  ["elem_attr_trigger", "elem_attr_callback", "elem_attr_fixed",
   "data_transform_func", "unnamed_form_key", "log"]

/-- Modelled from the spec: `Utils.sieve` lives in the external Utils.js
dependency, not in this repository.  Per the spec it "merges only
recognized keys (unrecognized keys are silently dropped — sieved)" into a
copy of the base configuration. -/
def sieve (base : Config) (upd : List (String × ConfVal)) : Config :=
  upd.foldl
    (fun c kv =>
      if kv.1 = "elem_attr_trigger" then { c with elem_attr_trigger := kv.2 }
      else if kv.1 = "elem_attr_callback" then { c with elem_attr_callback := kv.2 }
      else if kv.1 = "elem_attr_fixed" then { c with elem_attr_fixed := kv.2 }
      else if kv.1 = "data_transform_func" then { c with data_transform_func := kv.2 }
      else if kv.1 = "unnamed_form_key" then { c with unnamed_form_key := kv.2 }
      else if kv.1 = "log" then { c with log := kv.2 }
      else c)
    base

/-- The module's mutable configuration state: the active `conf` and the
one-slot backup `conf_bk` (initially `null`). -/
structure Store where
  conf : Config
  conf_bk : Option Config

/-- Source `makeNewConf(conf_obj)` (public `setConf`): snapshot the previous
config into `conf_bk`, replace `conf` by the sieved merge, return the new
config. -/
def makeNewConf (st : Store) (conf_obj : List (String × ConfVal)) : Config × Store :=
  let new_conf := sieve st.conf conf_obj
  (new_conf, { conf := new_conf, conf_bk := some st.conf })

/-- Source `resetConfToDefault()` (public `resetConf`): restore from the backup
slot when present and clear it; otherwise report and leave the config
unchanged.  Returns the (possibly restored) config. -/
def resetConfToDefault (st : Store) : Config × Store :=
  match st.conf_bk with
  | some bk => (bk, { conf := bk, conf_bk := none })
  | none => (st.conf, st)

/-- JS truthiness of a `getAttribute` result. -/
def truthyOptStr : Option String → Bool
  | none => false
  | some s => s ≠ ""

/-- Source `toObject(form, transform)`: wrap the gathered tree under
`(name || id) || conf.unnamed_form_key`, after applying `transform` when
it is a function; with every candidate key falsy the tree is returned
bare. -/
def toObject (conf : Config) (form : Form) (transform : ConfVal) : JVal :=
  let gathered : JVal := .obj (gatherTheValues form)
  let valobj : JVal :=
    match transform with
    | .fn f => f gathered
    | _ => gathered
  let nameK := form.getAttr "name"
  let idK := form.getAttr "id"
  let key : ConfVal :=
    if truthyOptStr nameK then .str (nameK.getD "")
    else if truthyOptStr idK then .str (idK.getD "")
    else conf.unnamed_form_key
  if truthyCV key then .obj [(cvKey key, valobj)] else valobj

/-- Outcome of `handleSubmission`: either exactly one call into the
external `Http` transport (carrying the verb-named function, the url, the
payload and the callback slot), or an abort with a logged diagnostic and
no transport call. -/
inductive SubmitResult where
  | request (url : String) (verb : String) (payload : JVal) (callbackName : Option String)
  | aborted

/-- Source `handleSubmission(form)` (public `submit`): require truthy `action`
and `method` attributes; otherwise log and abort without touching the
transport.  `Utils.stringToFunction` resolution of the callback name
happens in the external window namespace; the request records the
attribute string when truthy (`null` otherwise, an acceptable callback).
The `last_form_called := form` side effect is outside the result. -/
def handleSubmission (conf : Config) (form : Form) : SubmitResult :=
  match form.getAttr "action", form.getAttr "method" with
  | some url, some method =>
    if url = "" ∨ method = "" then .aborted
    else
      let chk := form.getAttr (cvKey conf.elem_attr_callback)
      let cb : Option String := if truthyOptStr chk then chk else none
      .request url method (toObject conf form conf.data_transform_func) cb
  | _, _ => .aborted

/-- One tag-collection pass of `clearFormValues`: for each index `i`, if
`elems[i]` lacks the fixed attribute the source assigns
`elems[1].value = ''` — the literal index 1, not `i`.  When the
collection has fewer than two elements, `elems[1]` is `undefined` and the
assignment throws a TypeError, modelled as `.error ()`. -/
def clearTagPass (fixedAttr : String) (elems : List DomElem) : Except Unit (List DomElem) :=
  (List.range elems.length).foldlM
    (fun acc i =>
      if (acc.getD i ⟨"", []⟩).hasAttr fixedAttr then pure acc
      else
        match acc with
        | a0 :: e1 :: rest => pure (a0 :: { e1 with value := "" } :: rest)
        | _ => .error ())
    elems

/-- Source `clearFormValues(form)` (public `clear`): run the clearing pass over
each tag collection in kind order. -/
def clearFormValues (conf : Config) (form : Form) : Except Unit Form := do
  let cleared ← form.elemsByTag.mapM (clearTagPass (cvKey conf.elem_attr_fixed))
  pure { form with elemsByTag := cleared }

end Mod


namespace Old

/-!
The constructor variant (first half of informer.js).  `gatherTheValues`
builds its element records with
`elem['name'] = getAttribute('name')` (no `|| false`, so `null` when the
attribute is missing) and `group`/`pargroup` via `getAttribute(a) || false`,
then runs the repeated-pass fixpoint `loopOnElements`.

`.error ()` models a thrown TypeError: in the scan, when a record's
pargroup key holds a string leaf, `vals[pargroup][group]` is an undefined
property of that string and `undefined[name] = val` throws.
-/

/-- One record of the `elements` array built by `buildElementsArray`. -/
structure Elem where
  name : Option String
  val : String
  group : Attr
  pargroup : Attr
deriving Repr, DecidableEq

/-- JS coercion of the stored `name` to an object key: the `null` left by
a missing `name` attribute becomes the literal key `"null"`. -/
def keyOfName : Option String → String
  | none => "null"
  | some s => s

/-- Whether the string property `s[k]` is defined in JS: the `length`
property and canonical numeric indices below the length (names from
`String.prototype` such as `charAt` are not modelled; no claim exercises
them). -/
def strPropDefined (s k : String) : Bool :=
  k = "length" ||
    (match k.toNat? with
     | some i => decide (toString i = k) && decide (i < s.length)
     | none => false)

/-- The `scan:`-labelled loop of `addElementToValues` for a record with a
truthy pargroup: walk the keys in order; on `key == pargroup` perform
`if (!vals[pargroup][group]) vals[pargroup][group] = {};
vals[pargroup][group][name] = val` and break; otherwise recurse into
object children.  The returned Bool is the closure variable `added`
(`true` once any insertion happened, also when a property write on a
string primitive was silently discarded). -/
def scanFields (e : Elem) : List (String × JVal) → Except Unit (List (String × JVal) × Bool)
  | [] => .ok ([], false)
  | (k, v) :: rest =>
    if k = keyOfAttr e.pargroup then
      match v with
      | .obj f =>
        let kg := keyOfAttr e.group
        let f' := if truthyVal (lookupKey f kg) then f else setKey f kg (.obj [])
        match lookupKey f' kg with
        | some (.obj w) =>
          .ok ((k, .obj (setKey f' kg
                  (.obj (setKey w (keyOfName e.name) (.str e.val))))) :: rest, true)
        | some (.str _) => .ok ((k, .obj f') :: rest, true)
        | none => .error ()
      | .str s =>
        if strPropDefined s (keyOfAttr e.group) then .ok ((k, v) :: rest, true)
        else .error ()
    else
      match v with
      | .obj f =>
        match scanFields e f with
        | .error err => .error err
        | .ok (f', a1) =>
          match scanFields e rest with
          | .error err => .error err
          | .ok (rest', a2) => .ok ((k, .obj f') :: rest', a1 || a2)
      | .str _ =>
        match scanFields e rest with
        | .error err => .error err
        | .ok (rest', a2) => .ok ((k, v) :: rest', a2)
termination_by fields => sizeOf fields
decreasing_by
  all_goals simp_wf
  all_goals omega

/-- Source `addElementToValues(elem, vals)`: pargroup branch scans; group branch
does `if (!vals[group]) vals[group] = {}; vals[group][name] = val` (a
write onto a string leaf is silently discarded by JS); plain branch does
`vals[name] = val`. -/
def addElementToValues (e : Elem) (vals : List (String × JVal)) :
    Except Unit (List (String × JVal) × Bool) :=
  if truthyA e.pargroup then
    scanFields e vals
  else if truthyA e.group then
    let kg := keyOfAttr e.group
    let vals' := if truthyVal (lookupKey vals kg) then vals else setKey vals kg (.obj [])
    match lookupKey vals' kg with
    | some (.obj w) =>
      .ok (setKey vals' kg (.obj (setKey w (keyOfName e.name) (.str e.val))), true)
    | some (.str _) => .ok (vals', true)
    | none => .error ()
  else
    .ok (setKey vals (keyOfName e.name) (.str e.val), true)

/-- One `for` sweep of `loopOnElements` over the `elements` array:
deleted slots (`none`) are skipped; a present record is attempted when it
has no truthy pargroup or `baseIsSet` holds; a record whose attempt set
`added` is deleted and makes the sweep report `recur = true`. -/
def passOnce (baseIsSet : Bool) :
    List (Option Elem) → List (String × JVal) →
    Except Unit (List (Option Elem) × List (String × JVal) × Bool)
  | [], vals => .ok ([], vals, false)
  | none :: rest, vals =>
    match passOnce baseIsSet rest vals with
    | .error err => .error err
    | .ok (rest', vals', r) => .ok (none :: rest', vals', r)
  | some e :: rest, vals =>
    if !truthyA e.pargroup || baseIsSet then
      match addElementToValues e vals with
      | .error err => .error err
      | .ok (vals', added) =>
        match passOnce baseIsSet rest vals' with
        | .error err => .error err
        | .ok (rest', vals'', r) =>
          if added then .ok (none :: rest', vals'', true)
          else .ok (some e :: rest', vals'', r)
    else
      match passOnce baseIsSet rest vals with
      | .error err => .error err
      | .ok (rest', vals', r) => .ok (some e :: rest', vals', r)

/-- Number of records still present in the `elements` array. -/
def countSome (els : List (Option Elem)) : Nat :=
  (els.filterMap id).length

theorem passOnce_countSome_le (b : Bool) (els : List (Option Elem))
    (vals : List (String × JVal)) (els' : List (Option Elem))
    (vals' : List (String × JVal)) (r : Bool)
    (h : passOnce b els vals = .ok (els', vals', r)) :
    countSome els' ≤ countSome els := by
  induction els generalizing vals els' vals' r with
  | nil =>
    simp [passOnce] at h
    simp [h.1]
  | cons hd rest ih =>
    cases hd with
    | none =>
      simp only [passOnce] at h
      cases hp : passOnce b rest vals with
      | error err => rw [hp] at h; exact absurd h (by simp)
      | ok res =>
        obtain ⟨rest', vals2, r2⟩ := res
        rw [hp] at h
        simp at h
        obtain ⟨he, _, _⟩ := h
        subst he
        simpa [countSome] using ih _ _ _ _ hp
    | some e =>
      simp only [passOnce] at h
      by_cases hc : (!truthyA e.pargroup || b) = true
      · rw [if_pos hc] at h
        cases ha : addElementToValues e vals with
        | error err => rw [ha] at h; exact absurd h (by simp)
        | ok resa =>
          obtain ⟨vals1, added⟩ := resa
          rw [ha] at h
          dsimp only at h
          cases hp : passOnce b rest vals1 with
          | error err => rw [hp] at h; exact absurd h (by simp)
          | ok res =>
            obtain ⟨rest', vals2, r2⟩ := res
            rw [hp] at h
            have hle := ih _ _ _ _ hp
            cases added with
            | true =>
              simp at h
              obtain ⟨he, _, _⟩ := h
              subst he
              simp [countSome] at hle ⊢
              omega
            | false =>
              simp at h
              obtain ⟨he, _, _⟩ := h
              subst he
              simp [countSome] at hle ⊢
              omega
      · rw [if_neg hc] at h
        cases hp : passOnce b rest vals with
        | error err => rw [hp] at h; exact absurd h (by simp)
        | ok res =>
          obtain ⟨rest', vals2, r2⟩ := res
          rw [hp] at h
          simp at h
          obtain ⟨he, _, _⟩ := h
          subst he
          have hle := ih _ _ _ _ hp
          simp [countSome] at hle ⊢
          omega

theorem passOnce_countSome_lt (b : Bool) (els : List (Option Elem))
    (vals : List (String × JVal)) (els' : List (Option Elem))
    (vals' : List (String × JVal))
    (h : passOnce b els vals = .ok (els', vals', true)) :
    countSome els' < countSome els := by
  induction els generalizing vals els' vals' with
  | nil => simp [passOnce] at h
  | cons hd rest ih =>
    cases hd with
    | none =>
      simp only [passOnce] at h
      cases hp : passOnce b rest vals with
      | error err => rw [hp] at h; exact absurd h (by simp)
      | ok res =>
        obtain ⟨rest', vals2, r2⟩ := res
        rw [hp] at h
        simp at h
        obtain ⟨he, _, hr⟩ := h
        subst he
        subst hr
        simpa [countSome] using ih _ _ _ hp
    | some e =>
      simp only [passOnce] at h
      by_cases hc : (!truthyA e.pargroup || b) = true
      · rw [if_pos hc] at h
        cases ha : addElementToValues e vals with
        | error err => rw [ha] at h; exact absurd h (by simp)
        | ok resa =>
          obtain ⟨vals1, added⟩ := resa
          rw [ha] at h
          dsimp only at h
          cases hp : passOnce b rest vals1 with
          | error err => rw [hp] at h; exact absurd h (by simp)
          | ok res =>
            obtain ⟨rest', vals2, r2⟩ := res
            rw [hp] at h
            have hle := passOnce_countSome_le b rest vals1 rest' vals2 r2 hp
            cases added with
            | true =>
              simp at h
              obtain ⟨he, _, _⟩ := h
              subst he
              simp [countSome] at hle ⊢
              omega
            | false =>
              simp at h
              obtain ⟨he, _, hr⟩ := h
              subst he
              subst hr
              have hlt := ih _ _ _ hp
              simp [countSome] at hlt ⊢
              omega
      · rw [if_neg hc] at h
        cases hp : passOnce b rest vals with
        | error err => rw [hp] at h; exact absurd h (by simp)
        | ok res =>
          obtain ⟨rest', vals2, r2⟩ := res
          rw [hp] at h
          simp at h
          obtain ⟨he, _, hr⟩ := h
          subst he
          subst hr
          have hlt := ih _ _ _ hp
          simp [countSome] at hlt ⊢
          omega

/-- Source `loopOnElements(baseIsSet)`: run one sweep; when it consumed anything
(`recur`), run another with `baseIsSet = true`.  The extra `Nat` counts
the sweeps executed (not part of the JS state; used to state the pass
bound). -/
def loopOnElements (baseIsSet : Bool) (els : List (Option Elem))
    (vals : List (String × JVal)) :
    Except Unit (List (Option Elem) × List (String × JVal) × Nat) :=
  match h : passOnce baseIsSet els vals with
  | .error err => .error err
  | .ok (els', vals', false) => .ok (els', vals', 1)
  | .ok (els', vals', true) =>
    match loopOnElements true els' vals' with
    | .error err => .error err
    | .ok (els'', vals'', n) => .ok (els'', vals'', n + 1)
termination_by countSome els
decreasing_by exact passOnce_countSome_lt _ _ _ _ _ h

/-- Source `displayErrors()`: collect the never-consumed records (the orphans)
in order; the source logs one warning line per entry of this list. -/
def displayErrors (els : List (Option Elem)) : List Elem :=
  els.filterMap id

/-- Source `gatherTheValues` of the constructor variant, from the records that
`buildElementsArray` produced: run the fixpoint from an empty tree, then
report orphans.  Returns the tree and the orphan list. -/
def gatherTheValues (elems : List Elem) :
    Except Unit (List (String × JVal) × List Elem) :=
  match loopOnElements false (elems.map some) [] with
  | .error err => .error err
  | .ok (els', vals, _passes) => .ok (vals, displayErrors els')

end Old


/-! ### Helper lemmas about the object model -/

theorem splitCharAux_ne_nil (sep : Char) (l : List Char) :
    splitCharAux sep l ≠ [] := by
  cases l with
  | nil => simp [splitCharAux]
  | cons c rest =>
    simp only [splitCharAux]
    cases h : splitCharAux sep rest with
    | nil => simp
    | cons g gs => by_cases hc : c = sep <;> simp [hc]

/-- JS `split` never returns an empty array, so `buildNestedObject` never
sees an empty key path. -/
theorem splitChar_ne_nil (sep : Char) (s : String) :
    splitChar sep s ≠ [] := by
  simp [splitChar, splitCharAux_ne_nil]

theorem lookupKey_setKey_self (o : List (String × JVal)) (k : String) (v : JVal) :
    lookupKey (setKey o k v) k = some v := by
  induction o with
  | nil => simp [setKey, lookupKey]
  | cons hd rest ih =>
    obtain ⟨k', v'⟩ := hd
    by_cases h : k' = k <;> simp [setKey, lookupKey, h, ih]

theorem lookupKey_setKey_ne (o : List (String × JVal)) (k k' : String) (v : JVal)
    (h : k' ≠ k) :
    lookupKey (setKey o k v) k' = lookupKey o k' := by
  induction o with
  | nil => simp [setKey, lookupKey, Ne.symm h]
  | cons hd rest ih =>
    obtain ⟨k1, v1⟩ := hd
    by_cases h1 : k1 = k
    · subst h1
      simp [setKey, lookupKey, Ne.symm h]
    · by_cases h2 : k1 = k' <;> simp [setKey, lookupKey, h1, h2, ih, h]

theorem lookupKey_eq_none_of_not_mem (o : List (String × JVal)) (k : String)
    (h : k ∉ o.map Prod.fst) : lookupKey o k = none := by
  induction o with
  | nil => simp [lookupKey]
  | cons hd rest ih =>
    obtain ⟨k1, v1⟩ := hd
    rw [List.map_cons, List.mem_cons] at h
    push_neg at h
    simp [lookupKey, Ne.symm h.1, ih h.2]

theorem leavesV_obj_nil : leavesV (.obj []) = [] := by
  rw [leavesV]

theorem leavesV_obj_cons (k : String) (v : JVal) (rest : List (String × JVal)) :
    leavesV (.obj ((k, v) :: rest)) = leavesV v ++ leavesV (.obj rest) := by
  rw [leavesV]

theorem deepKeysV_obj_nil : deepKeysV (.obj []) = [] := by
  rw [deepKeysV]

theorem deepKeysV_obj_cons (k : String) (v : JVal) (rest : List (String × JVal)) :
    deepKeysV (.obj ((k, v) :: rest)) = k :: (deepKeysV v ++ deepKeysV (.obj rest)) := by
  rw [deepKeysV]

theorem leavesV_setKey (o : List (String × JVal)) (k : String) (v : JVal) :
    ∀ s, s ∈ leavesV (.obj (setKey o k v)) → s ∈ leavesV (.obj o) ∨ s ∈ leavesV v := by
  induction o with
  | nil =>
    intro s hs
    simp [setKey, leavesV] at hs
    exact Or.inr hs
  | cons hd rest ih =>
    obtain ⟨k1, v1⟩ := hd
    intro s hs
    by_cases h : k1 = k
    · subst h
      have hset : setKey ((k1, v1) :: rest) k1 v = (k1, v) :: rest := by
        simp [setKey]
      rw [hset, leavesV_obj_cons, List.mem_append] at hs
      rcases hs with hs | hs
      · exact Or.inr hs
      · exact Or.inl (by
          rw [leavesV_obj_cons, List.mem_append]
          exact Or.inr hs)
    · have hset : setKey ((k1, v1) :: rest) k v = (k1, v1) :: setKey rest k v := by
        simp [setKey, h]
      rw [hset, leavesV_obj_cons, List.mem_append] at hs
      rw [leavesV_obj_cons, List.mem_append]
      rcases hs with hs | hs
      · exact Or.inl (Or.inl hs)
      · rcases ih s hs with hh | hh
        · exact Or.inl (Or.inr hh)
        · exact Or.inr hh

theorem leavesV_lookup (o : List (String × JVal)) (k : String) (v : JVal)
    (h : lookupKey o k = some v) :
    ∀ s, s ∈ leavesV v → s ∈ leavesV (.obj o) := by
  induction o with
  | nil => simp [lookupKey] at h
  | cons hd rest ih =>
    obtain ⟨k1, v1⟩ := hd
    intro s hs
    by_cases h1 : k1 = k
    · rw [lookupKey, if_pos h1] at h
      simp at h
      subst h
      simp [leavesV, hs]
    · rw [lookupKey, if_neg h1] at h
      simp [leavesV]
      right
      simpa [leavesV] using ih h s hs

theorem leavesV_buildNestedObject (ks : List String) (v : JVal) :
    ∀ s, s ∈ leavesV (.obj (Mod.buildNestedObject ks v)) → s ∈ leavesV v := by
  induction ks with
  | nil => simp [Mod.buildNestedObject, leavesV]
  | cons k ks ih =>
    cases ks with
    | nil =>
      intro s hs
      simpa [Mod.buildNestedObject, setKey, leavesV] using hs
    | cons k2 ks2 =>
      intro s hs
      simp only [Mod.buildNestedObject, setKey, leavesV, List.mem_append] at hs
      rcases hs with hs | hs
      · exact ih s (by simpa [leavesV] using hs)
      · simp at hs

theorem leavesV_mergeObjects (o1 o2 : List (String × JVal)) :
    ∀ s, s ∈ leavesV (.obj (Mod.mergeObjects o1 o2)) →
      s ∈ leavesV (.obj o1) ∨ s ∈ leavesV (.obj o2) := by
  induction o1, o2 using Mod.mergeObjects.induct with
  | case1 o1 =>
    intro s hs
    rw [Mod.mergeObjects.eq_def] at hs
    exact Or.inl hs
  | case2 o1 k rest f1 f2 hl ih1 ih2 =>
    intro s hs
    rw [Mod.mergeObjects.eq_def] at hs
    simp only [hl] at hs
    rcases ih2 s hs with hh | hh
    · rcases leavesV_setKey _ _ _ s hh with h1 | h1
      · exact Or.inl h1
      · rcases ih1 s (by simpa [leavesV] using h1) with h2 | h2
        · exact Or.inl (leavesV_lookup _ _ _ hl s (by simpa [leavesV] using h2))
        · exact Or.inr (by simp [leavesV]; left; simpa [leavesV] using h2)
    · exact Or.inr (by simp [leavesV]; right; simpa [leavesV] using hh)
  | case3 o1 k v2 rest hne ih =>
    intro s hs
    rw [Mod.mergeObjects.eq_def] at hs
    have hred : s ∈ leavesV (.obj (Mod.mergeObjects (setKey o1 k v2) rest)) := by
      rcases hl : lookupKey o1 k with _ | w
      · cases v2 <;> simpa [hl] using hs
      · cases w with
        | str t => cases v2 <;> simpa [hl] using hs
        | obj f1 =>
          cases v2 with
          | str t => simpa [hl] using hs
          | obj f2 => exact (hne f1 f2 hl rfl).elim
    rcases ih s hred with hh | hh
    · rcases leavesV_setKey _ _ _ s hh with h1 | h1
      · exact Or.inl h1
      · exact Or.inr (by simp [leavesV]; left; exact h1)
    · exact Or.inr (by simp [leavesV]; right; simpa [leavesV] using hh)


/-! ### Claim theorems -/

/-- Claim C1: colon-path grouping (Strategy A).  For a record whose group
attribute is present, the builder splits the group string on ':', wraps
`{name: value}` in one nesting level per path segment from innermost to
outermost (`buildNestedObject` agrees with the spec-side `nestSegments`
on every non-empty path), and deep-merges the fragment into the tree: one
record with group "a:b", name "x", value "v" yields `{a:{b:{x:"v"}}}`,
and two records with groups "a:b" and "a:c" yield sibling subtrees under
"a" with both preserved. -/
theorem c1_colon_path_grouping :
    (∀ (ks : List String) (v : JVal), ks ≠ [] →
        JVal.obj (Mod.buildNestedObject ks v) = Mod.nestSegments ks v) ∧
    Mod.groupValues [⟨"v", Attr.str "x", Attr.str "a:b"⟩]
      = [("a", JVal.obj [("b", JVal.obj [("x", JVal.str "v")])])] ∧
    Mod.groupValues [⟨"v", Attr.str "x", Attr.str "a:b"⟩, ⟨"w", Attr.str "y", Attr.str "a:c"⟩]
      = [("a", JVal.obj [("b", JVal.obj [("x", JVal.str "v")]),
                         ("c", JVal.obj [("y", JVal.str "w")])])] := by
  refine ⟨?_, ?_, ?_⟩
  · intro ks v
    induction ks with
    | nil => intro h; exact absurd rfl h
    | cons k ks ih =>
      intro _
      cases ks with
      | nil => simp [Mod.buildNestedObject, Mod.nestSegments, setKey]
      | cons k2 ks2 =>
        have hih := ih (by simp)
        calc JVal.obj (Mod.buildNestedObject (k :: k2 :: ks2) v)
            = JVal.obj [(k, JVal.obj (Mod.buildNestedObject (k2 :: ks2) v))] := by
              simp [Mod.buildNestedObject, setKey]
          _ = JVal.obj [(k, Mod.nestSegments (k2 :: ks2) v)] := by rw [hih]
          _ = Mod.nestSegments (k :: k2 :: ks2) v := by simp [Mod.nestSegments]
  · simp [Mod.groupValues, Mod.buildNestedObject, Mod.mergeObjects, setKey, lookupKey,
      truthyA, keyOfAttr, splitChar, splitCharAux]
  · simp [Mod.groupValues, Mod.buildNestedObject, Mod.mergeObjects, setKey, lookupKey,
      truthyA, keyOfAttr, splitChar, splitCharAux]

/-- Witness for C1: the non-empty-path refinement instantiated at the
path ["a", "b"]. -/
theorem c1_colon_path_grouping_witness :
    (["a", "b"] : List String) ≠ [] ∧
    JVal.obj (Mod.buildNestedObject ["a", "b"] (JVal.str "v"))
      = Mod.nestSegments ["a", "b"] (JVal.str "v") :=
  ⟨by decide, c1_colon_path_grouping.1 ["a", "b"] (JVal.str "v") (by decide)⟩

/-- Claim C10: an element with no `name` attribute is recorded with the
sentinel `false`, and the Strategy A builder inserts its value under the
literal string key "false" (the sentinel coerced to an object key)
instead of skipping the element or raising an error. -/
theorem c10_missing_name_becomes_false_key (e : Mod.DomElem)
    (h : e.getAttr "name" = none) :
    (Mod.elemToObject e).name = Attr.absent ∧
    (e.getAttr "group" = none →
      Mod.groupValues [Mod.elemToObject e] = [("false", JVal.str e.value)]) := by
  refine ⟨?_, ?_⟩
  · simp [Mod.elemToObject, h, attrOrFalse]
  · intro hg
    simp [Mod.groupValues, Mod.elemToObject, h, hg, attrOrFalse, truthyA, keyOfAttr, setKey]

/-- Witness for C10: a bare submit-button-like element with no
attributes at all. -/
theorem c10_missing_name_becomes_false_key_witness :
    (⟨"Make it so", []⟩ : Mod.DomElem).getAttr "name" = none ∧
    ((Mod.elemToObject ⟨"Make it so", []⟩).name = Attr.absent ∧
      ((⟨"Make it so", []⟩ : Mod.DomElem).getAttr "group" = none →
        Mod.groupValues [Mod.elemToObject ⟨"Make it so", []⟩]
          = [("false", JVal.str "Make it so")])) :=
  ⟨rfl, c10_missing_name_becomes_false_key ⟨"Make it so", []⟩ rfl⟩

/-- Claim C3: deep-merge semantics of `mergeObjects`.  For every key, the
merged binding is: the existing one when the key is absent from the
incoming fragment; the recursive merge when both sides are structures;
and the incoming value wholesale in every other case (either side a leaf,
or the key new), so the later write wins. -/
theorem c3_merge_semantics (o1 o2 : List (String × JVal)) (k : String)
    (h : (o2.map Prod.fst).Nodup) :
    lookupKey (Mod.mergeObjects o1 o2) k =
      match lookupKey o2 k, lookupKey o1 k with
      | none, w => w
      | some (JVal.obj f2), some (JVal.obj f1) => some (JVal.obj (Mod.mergeObjects f1 f2))
      | some v2, _ => some v2 := by
  induction o2 generalizing o1 with
  | nil => rw [Mod.mergeObjects.eq_def]; simp [lookupKey]
  | cons hd rest ih =>
    obtain ⟨k2, v2⟩ := hd
    rw [List.map_cons, List.nodup_cons] at h
    obtain ⟨hk2, hrest⟩ := h
    by_cases hk : k2 = k
    · subst hk
      have hrnone : lookupKey rest k2 = none := lookupKey_eq_none_of_not_mem rest k2 hk2
      rcases hl : lookupKey o1 k2 with _ | w
      · rw [Mod.mergeObjects.eq_def]
        simp only [hl]
        cases v2 with
        | str t =>
          rw [ih _ hrest]
          simp [hrnone, lookupKey_setKey_self, lookupKey]
        | obj f2 =>
          rw [ih _ hrest]
          simp [hrnone, lookupKey_setKey_self, lookupKey, hl]
      · cases w with
        | str t =>
          rw [Mod.mergeObjects.eq_def]
          simp only [hl]
          cases v2 with
          | str t2 =>
            rw [ih _ hrest]
            simp [hrnone, lookupKey_setKey_self, lookupKey]
          | obj f2 =>
            rw [ih _ hrest]
            simp [hrnone, lookupKey_setKey_self, lookupKey, hl]
        | obj f1 =>
          rw [Mod.mergeObjects.eq_def]
          simp only [hl]
          cases v2 with
          | str t2 =>
            rw [ih _ hrest]
            simp [hrnone, lookupKey_setKey_self, lookupKey, hl]
          | obj f2 =>
            rw [ih _ hrest]
            simp [hrnone, lookupKey_setKey_self, lookupKey, hl]
    · rcases hl : lookupKey o1 k2 with _ | w
      · rw [Mod.mergeObjects.eq_def]
        simp only [hl]
        cases v2 with
        | str t =>
          rw [ih _ hrest, lookupKey_setKey_ne o1 k2 k _ (Ne.symm hk)]
          simp [lookupKey, hk]
        | obj f2 =>
          rw [ih _ hrest, lookupKey_setKey_ne o1 k2 k _ (Ne.symm hk)]
          simp [lookupKey, hk]
      · cases w with
        | str t =>
          rw [Mod.mergeObjects.eq_def]
          simp only [hl]
          cases v2 with
          | str t2 =>
            rw [ih _ hrest, lookupKey_setKey_ne o1 k2 k _ (Ne.symm hk)]
            simp [lookupKey, hk]
          | obj f2 =>
            rw [ih _ hrest, lookupKey_setKey_ne o1 k2 k _ (Ne.symm hk)]
            simp [lookupKey, hk]
        | obj f1 =>
          rw [Mod.mergeObjects.eq_def]
          simp only [hl]
          cases v2 with
          | str t2 =>
            rw [ih _ hrest, lookupKey_setKey_ne o1 k2 k _ (Ne.symm hk)]
            simp [lookupKey, hk]
          | obj f2 =>
            rw [ih _ hrest, lookupKey_setKey_ne o1 k2 k _ (Ne.symm hk)]
            simp [lookupKey, hk]

/-- Witness for C3: merging `{a:{y:"3"}}` into `{a:{x:"1"}}` recurses at
the shared key "a". -/
theorem c3_merge_semantics_witness :
    (([("a", JVal.obj [("y", JVal.str "3")])].map Prod.fst).Nodup) ∧
    lookupKey (Mod.mergeObjects [("a", JVal.obj [("x", JVal.str "1")])]
        [("a", JVal.obj [("y", JVal.str "3")])]) "a"
      = some (JVal.obj (Mod.mergeObjects [("x", JVal.str "1")] [("y", JVal.str "3")])) := by
  constructor
  · decide
  · have h := c3_merge_semantics [("a", JVal.obj [("x", JVal.str "1")])]
      [("a", JVal.obj [("y", JVal.str "3")])] "a" (by decide)
    simpa [lookupKey] using h

theorem truthyOptStr_false_iff (o : Option String) :
    Mod.truthyOptStr o = false ↔ o = none ∨ o = some "" := by
  cases o with
  | none => simp [Mod.truthyOptStr]
  | some s => simp [Mod.truthyOptStr]

/-- Claim C4: wrapping.  `toObject` keys the built tree by the form's
truthy `name` attribute, else its truthy `id` attribute, else the
configured fallback key, yielding `{key: T}`; when all three are
absent/disabled the tree is returned bare and unchanged (stated for a
non-function transform, so the wrapped value is the tree itself). -/
theorem c4_wrapping (conf : Mod.Config) (form : Mod.Form) (transform : Mod.ConfVal)
    (htr : ∀ f, transform ≠ Mod.ConfVal.fn f) :
    (∀ n, form.getAttr "name" = some n → n ≠ "" →
      Mod.toObject conf form transform
        = JVal.obj [(n, JVal.obj (Mod.gatherTheValues form))]) ∧
    (Mod.truthyOptStr (form.getAttr "name") = false →
      ∀ i, form.getAttr "id" = some i → i ≠ "" →
        Mod.toObject conf form transform
          = JVal.obj [(i, JVal.obj (Mod.gatherTheValues form))]) ∧
    (Mod.truthyOptStr (form.getAttr "name") = false →
      Mod.truthyOptStr (form.getAttr "id") = false →
      ∀ s, conf.unnamed_form_key = Mod.ConfVal.str s → s ≠ "" →
        Mod.toObject conf form transform
          = JVal.obj [(s, JVal.obj (Mod.gatherTheValues form))]) ∧
    (Mod.truthyOptStr (form.getAttr "name") = false →
      Mod.truthyOptStr (form.getAttr "id") = false →
      Mod.truthyCV conf.unnamed_form_key = false →
      Mod.toObject conf form transform = JVal.obj (Mod.gatherTheValues form)) := by
  have hv : (match transform with
      | Mod.ConfVal.fn f => f (JVal.obj (Mod.gatherTheValues form))
      | _ => JVal.obj (Mod.gatherTheValues form))
      = JVal.obj (Mod.gatherTheValues form) := by
    cases transform with
    | str s => rfl
    | fn f => exact absurd rfl (htr f)
    | nul => rfl
    | boolean b => rfl
  refine ⟨?_, ?_, ?_, ?_⟩
  · intro n hn hne
    simp [Mod.toObject, hv, hn, Mod.truthyOptStr, hne, Mod.truthyCV, Mod.cvKey]
  · intro hname i hi hne
    rcases (truthyOptStr_false_iff _).1 hname with h0 | h0 <;>
      simp [Mod.toObject, hv, h0, hi, Mod.truthyOptStr, hne, Mod.truthyCV, Mod.cvKey]
  · intro hname hid s hs hne
    rcases (truthyOptStr_false_iff _).1 hname with h0 | h0 <;>
      rcases (truthyOptStr_false_iff _).1 hid with h1 | h1 <;>
      simp [Mod.toObject, hv, h0, h1, hs, Mod.truthyOptStr, hne, Mod.truthyCV, Mod.cvKey]
  · intro hname hid hkey
    rcases (truthyOptStr_false_iff _).1 hname with h0 | h0 <;>
      rcases (truthyOptStr_false_iff _).1 hid with h1 | h1 <;>
      simp [Mod.toObject, hv, h0, h1, Mod.truthyOptStr, hkey]

/-- Witness for C4: the readme scenario, form name "new-user", with no
transform configured. -/
theorem c4_wrapping_witness :
    (∀ f, Mod.ConfVal.nul ≠ Mod.ConfVal.fn f) ∧
    (Mod.Form.mk [("name", "new-user")] []).getAttr "name" = some "new-user" ∧
    ("new-user" : String) ≠ "" ∧
    Mod.toObject Mod.defaultConf ⟨[("name", "new-user")], []⟩ Mod.ConfVal.nul
      = JVal.obj [("new-user",
          JVal.obj (Mod.gatherTheValues ⟨[("name", "new-user")], []⟩))] :=
  ⟨fun f h => Mod.ConfVal.noConfusion h, rfl, by decide,
    (c4_wrapping Mod.defaultConf ⟨[("name", "new-user")], []⟩ Mod.ConfVal.nul
      (fun f h => Mod.ConfVal.noConfusion h)).1 "new-user" rfl (by decide)⟩

/-- Claim C7: submission guard.  When the form's `action` (destination
URL) or `method` (HTTP verb) attribute is missing, `handleSubmission`
logs and aborts with no transport call; when both are present (truthy),
exactly one transport call is made with that url and verb. -/
theorem c7_submission_guard (conf : Mod.Config) (form : Mod.Form) :
    ((form.getAttr "action" = none ∨ form.getAttr "method" = none) →
      Mod.handleSubmission conf form = Mod.SubmitResult.aborted) ∧
    (∀ u v, form.getAttr "action" = some u → u ≠ "" →
      form.getAttr "method" = some v → v ≠ "" →
      ∃ payload cb, Mod.handleSubmission conf form
        = Mod.SubmitResult.request u v payload cb) := by
  constructor
  · intro habs
    rcases habs with h | h
    · cases hm : form.getAttr "method" <;> simp [Mod.handleSubmission, h, hm]
    · cases ha : form.getAttr "action" <;> simp [Mod.handleSubmission, h, ha]
  · intro u v hu hune hv hvne
    refine ⟨Mod.toObject conf form conf.data_transform_func,
      if Mod.truthyOptStr (form.getAttr (Mod.cvKey conf.elem_attr_callback))
        then form.getAttr (Mod.cvKey conf.elem_attr_callback) else none, ?_⟩
    simp [Mod.handleSubmission, hu, hv, hune, hvne]

/-- Witness for C7: a form missing `action` aborts; the readme form with
both attributes produces one request with that url and verb. -/
theorem c7_submission_guard_witness :
    Mod.handleSubmission Mod.defaultConf ⟨[("method", "post")], []⟩
      = Mod.SubmitResult.aborted ∧
    ∃ payload cb,
      Mod.handleSubmission Mod.defaultConf
          ⟨[("action", "/api/users"), ("method", "post")], []⟩
        = Mod.SubmitResult.request "/api/users" "post" payload cb :=
  ⟨(c7_submission_guard Mod.defaultConf ⟨[("method", "post")], []⟩).1 (Or.inl rfl),
    (c7_submission_guard Mod.defaultConf
        ⟨[("action", "/api/users"), ("method", "post")], []⟩).2
      "/api/users" "post" rfl (by decide) rfl (by decide)⟩

/-- Claim C6: config round-trip.  `setConf` (`makeNewConf`) sieves the
update — a partial config whose unrecognized keys are dropped — after
snapshotting the previous config into the one-slot backup; the following
`resetConf` restores every option to its pre-`setConf` value and clears
the backup, and a second `resetConf` with no intervening `setConf` is a
no-op returning the current config unchanged. -/
theorem c6_config_roundtrip (st : Mod.Store) (upd : List (String × Mod.ConfVal))
    (k : String) (v : Mod.ConfVal) (hk : k ∉ Mod.recognizedConfKeys) :
    Mod.resetConfToDefault (Mod.makeNewConf st upd).2 = (st.conf, ⟨st.conf, none⟩) ∧
    Mod.resetConfToDefault ⟨st.conf, none⟩ = (st.conf, ⟨st.conf, none⟩) ∧
    Mod.sieve st.conf [(k, v)] = st.conf := by
  refine ⟨?_, ?_, ?_⟩
  · simp [Mod.makeNewConf, Mod.resetConfToDefault]
  · simp [Mod.resetConfToDefault]
  · simp [Mod.recognizedConfKeys] at hk
    simp [Mod.sieve, hk.1, hk.2.1, hk.2.2.1, hk.2.2.2.1, hk.2.2.2.2.1, hk.2.2.2.2.2]

/-- Witness for C6: update the `log` option from the defaults, reset
twice, and sieve an unrecognized key "bogus". -/
theorem c6_config_roundtrip_witness :
    ("bogus" ∉ Mod.recognizedConfKeys) ∧
    (Mod.resetConfToDefault
        (Mod.makeNewConf ⟨Mod.defaultConf, none⟩ [("log", Mod.ConfVal.boolean true)]).2
      = (Mod.defaultConf, ⟨Mod.defaultConf, none⟩) ∧
     Mod.resetConfToDefault ⟨Mod.defaultConf, none⟩
      = (Mod.defaultConf, ⟨Mod.defaultConf, none⟩) ∧
     Mod.sieve Mod.defaultConf [("bogus", Mod.ConfVal.nul)] = Mod.defaultConf) :=
  ⟨by decide,
    c6_config_roundtrip ⟨Mod.defaultConf, none⟩ [("log", Mod.ConfVal.boolean true)]
      "bogus" Mod.ConfVal.nul (by decide)⟩

/-- Claim C8 (code bug): `clearFormValues` tests
`elems[i].hasAttribute(fixed)` but assigns `elems[1].value = ''` — the
literal index 1 instead of `i`.  On a collection of two inputs where the
first lacks the fixed attribute (default `disabled`) and the second
carries it, the pass clears the second (fixed) element and leaves the
first untouched — the exact opposite of the claim, which describes the
evident intent. -/
theorem c8_clear_fixed_bug :
    Mod.clearFormValues Mod.defaultConf
        ⟨[], [[⟨"a", []⟩, ⟨"b", [("disabled", "")]⟩]]⟩
      = Except.ok ⟨[], [[⟨"a", []⟩, ⟨"", [("disabled", "")]⟩]]⟩ := by
  rfl

/-- Counterexample for C5: one record with no pargroup. The first sweep
consumes it, and since something was consumed the loop runs one more
(empty) sweep, so a single record already takes two passes — more than
the claimed bound of one pass per record. -/
theorem c5_counterexample :
    Old.loopOnElements false [some ⟨some "x", "v", Attr.absent, Attr.absent⟩] []
      = Except.ok ([none], [("x", JVal.str "v")], 2) ∧
    Old.countSome [some ⟨some "x", "v", Attr.absent, Attr.absent⟩] = 1 ∧
    ¬((2 : Nat) ≤ 1) := by
  refine ⟨?_, by decide, by decide⟩
  rw [Old.loopOnElements.eq_def]
  rw [show Old.passOnce false [some ⟨some "x", "v", Attr.absent, Attr.absent⟩] []
    = .ok ([none], [("x", JVal.str "v")], true) from rfl]
  dsimp only
  rw [Old.loopOnElements.eq_def]
  rw [show Old.passOnce true [none] [("x", JVal.str "v")]
    = .ok ([none], [("x", JVal.str "v")], false) from rfl]

/-- Claim C5 as amended: the Strategy B fixpoint terminates, recurring
only after a sweep that consumed at least one record, so whenever the
loop returns, the number of executed passes is bounded by the number of
remaining records plus one (the final sweep, which consumes nothing — it
runs even when the previous sweep consumed the last record). -/
theorem c5_fixpoint_pass_bound (b : Bool) (els : List (Option Old.Elem))
    (vals : List (String × JVal)) (els' : List (Option Old.Elem))
    (vals' : List (String × JVal)) (n : Nat)
    (h : Old.loopOnElements b els vals = Except.ok (els', vals', n)) :
    n ≤ Old.countSome els + 1 := by
  induction b, els, vals using Old.loopOnElements.induct generalizing els' vals' n with
  | case1 b els vals err hp =>
    rw [Old.loopOnElements.eq_def, hp] at h
    exact absurd h (by simp)
  | case2 b els vals els1 vals1 hp =>
    rw [Old.loopOnElements.eq_def, hp] at h
    simp at h
    omega
  | case3 b els vals els1 vals1 hp err hl ih =>
    rw [Old.loopOnElements.eq_def, hp] at h
    dsimp only at h
    rw [hl] at h
    exact absurd h (by simp)
  | case4 b els vals els1 vals1 hp els2 vals2 m hl ih =>
    rw [Old.loopOnElements.eq_def, hp] at h
    dsimp only at h
    rw [hl] at h
    simp at h
    have hm := ih els2 vals2 m hl
    have hlt := Old.passOnce_countSome_lt b els vals els1 vals1 hp
    omega

theorem scanFields_no_add_aux (e : Old.Elem) :
    ∀ (n : Nat) (f : List (String × JVal)), sizeOf f ≤ n →
      ∀ f', Old.scanFields e f = Except.ok (f', false) →
        f' = f ∧ keyOfAttr e.pargroup ∉ deepKeysV (.obj f) := by
  intro n
  induction n with
  | zero =>
    intro f hsz
    exact absurd hsz (by cases f <;> simp)
  | succ n ih =>
    intro f hsz f' h
    match f with
    | [] =>
      rw [Old.scanFields.eq_def] at h
      simp at h
      simp [h, deepKeysV_obj_nil]
    | (k, v) :: rest =>
      rw [Old.scanFields.eq_def] at h
      dsimp only at h
      by_cases hk : k = keyOfAttr e.pargroup
      · rw [if_pos hk] at h
        cases v with
        | obj f0 =>
          dsimp only at h
          rcases hl : lookupKey
              (if truthyVal (lookupKey f0 (keyOfAttr e.group)) = true then f0
               else setKey f0 (keyOfAttr e.group) (JVal.obj []))
              (keyOfAttr e.group) with _ | w
          · rw [hl] at h
            exact absurd h (by simp)
          · cases w with
            | str t => rw [hl] at h; exact absurd h (by simp)
            | obj w0 => rw [hl] at h; exact absurd h (by simp)
        | str s =>
          dsimp only at h
          by_cases hd : Old.strPropDefined s (keyOfAttr e.group) = true
          · rw [if_pos hd] at h
            exact absurd h (by simp)
          · rw [if_neg hd] at h
            exact absurd h (by simp)
      · rw [if_neg hk] at h
        cases v with
        | obj f0 =>
          dsimp only at h
          cases hf0 : Old.scanFields e f0 with
          | error err => rw [hf0] at h; exact absurd h (by simp)
          | ok res0 =>
            obtain ⟨f0', a1⟩ := res0
            rw [hf0] at h
            dsimp only at h
            cases hr : Old.scanFields e rest with
            | error err => rw [hr] at h; exact absurd h (by simp)
            | ok resr =>
              obtain ⟨rest', a2⟩ := resr
              rw [hr] at h
              dsimp only at h
              simp at h
              obtain ⟨hfst, ha1, ha2⟩ := h
              have hsz0 : sizeOf f0 ≤ n := by
                simp at hsz
                omega
              have hszr : sizeOf rest ≤ n := by
                simp at hsz
                omega
              have h1 := ih f0 hsz0 f0' (by rw [hf0, ha1])
              have h2 := ih rest hszr rest' (by rw [hr, ha2])
              constructor
              · rw [← hfst, h1.1, h2.1]
              · rw [deepKeysV_obj_cons]
                intro hmem
                rcases List.mem_cons.1 hmem with heq1 | hmem2
                · exact hk heq1.symm
                · rcases List.mem_append.1 hmem2 with hm | hm
                  · exact h1.2 hm
                  · exact h2.2 hm
        | str s =>
          dsimp only at h
          cases hr : Old.scanFields e rest with
          | error err => rw [hr] at h; exact absurd h (by simp)
          | ok resr =>
            obtain ⟨rest', a2⟩ := resr
            rw [hr] at h
            dsimp only at h
            simp at h
            obtain ⟨hfst, ha2⟩ := h
            have hszr : sizeOf rest ≤ n := by
              simp at hsz
              omega
            have h2 := ih rest hszr rest' (by rw [hr, ha2])
            constructor
            · rw [← hfst, h2.1]
            · rw [deepKeysV_obj_cons]
              intro hmem
              rcases List.mem_cons.1 hmem with heq1 | hmem2
              · exact hk heq1.symm
              · rcases List.mem_append.1 hmem2 with hm | hm
                · simp [deepKeysV] at hm
                · exact h2.2 hm

/-- A scan that set no `added` flag left the object untouched, and the
record's pargroup occurs nowhere among its keys, at any depth. -/
theorem scanFields_no_add (e : Old.Elem) (f f' : List (String × JVal))
    (h : Old.scanFields e f = Except.ok (f', false)) :
    f' = f ∧ keyOfAttr e.pargroup ∉ deepKeysV (.obj f) :=
  scanFields_no_add_aux e (sizeOf f) f (Nat.le_refl _) f' h

/-- An attempt that set no `added` flag: the tree is untouched, the
record necessarily carries a truthy pargroup (the group and plain
branches always add), and that pargroup occurs nowhere in the tree. -/
theorem addElementToValues_no_add (e : Old.Elem) (vals vals' : List (String × JVal))
    (h : Old.addElementToValues e vals = Except.ok (vals', false)) :
    vals' = vals ∧ truthyA e.pargroup = true ∧
      keyOfAttr e.pargroup ∉ deepKeysV (.obj vals) := by
  unfold Old.addElementToValues at h
  by_cases hp : truthyA e.pargroup = true
  · rw [if_pos hp] at h
    have hs := scanFields_no_add e vals vals' h
    exact ⟨hs.1, hp, hs.2⟩
  · rw [if_neg hp] at h
    by_cases hg : truthyA e.group = true
    · rw [if_pos hg] at h
      dsimp only at h
      rcases hl : lookupKey
          (if truthyVal (lookupKey vals (keyOfAttr e.group)) = true then vals
           else setKey vals (keyOfAttr e.group) (JVal.obj []))
          (keyOfAttr e.group) with _ | w
      · rw [hl] at h
        exact absurd h (by simp)
      · cases w with
        | str t => rw [hl] at h; exact absurd h (by simp)
        | obj w0 => rw [hl] at h; exact absurd h (by simp)
    · rw [if_neg hg] at h
      exact absurd h (by simp)

/-- A sweep that consumed nothing left both the element array and the
tree untouched, and every present record has a truthy pargroup; when the
sweep ran with `baseIsSet` those pargroups were scanned against the tree
and occur nowhere in it. -/
theorem passOnce_no_recur (b : Bool) (els : List (Option Old.Elem))
    (vals : List (String × JVal)) (els' : List (Option Old.Elem))
    (vals' : List (String × JVal))
    (h : Old.passOnce b els vals = Except.ok (els', vals', false)) :
    els' = els ∧ vals' = vals ∧
      ∀ e, some e ∈ els → truthyA e.pargroup = true ∧
        (b = true → keyOfAttr e.pargroup ∉ deepKeysV (.obj vals)) := by
  induction els generalizing vals els' vals' with
  | nil =>
    simp [Old.passOnce] at h
    simp [h.1, h.2]
  | cons hd rest ih =>
    cases hd with
    | none =>
      simp only [Old.passOnce] at h
      cases hp : Old.passOnce b rest vals with
      | error err => rw [hp] at h; exact absurd h (by simp)
      | ok res =>
        obtain ⟨rest', vals2, r2⟩ := res
        rw [hp] at h
        simp at h
        obtain ⟨he, hv, hr⟩ := h
        subst hr
        obtain ⟨he1, hv1, hfacts⟩ := ih vals rest' vals2 hp
        refine ⟨by rw [← he, he1], by rw [← hv, hv1], ?_⟩
        intro e hmem
        rcases List.mem_cons.1 hmem with heq1 | hmem2
        · simp at heq1
        · exact hfacts e hmem2
    | some e0 =>
      simp only [Old.passOnce] at h
      by_cases hc : (!truthyA e0.pargroup || b) = true
      · rw [if_pos hc] at h
        cases ha : Old.addElementToValues e0 vals with
        | error err => rw [ha] at h; exact absurd h (by simp)
        | ok resa =>
          obtain ⟨vals1, added⟩ := resa
          rw [ha] at h
          dsimp only at h
          cases hp : Old.passOnce b rest vals1 with
          | error err => rw [hp] at h; exact absurd h (by simp)
          | ok res =>
            obtain ⟨rest', vals2, r2⟩ := res
            rw [hp] at h
            cases added with
            | true =>
              simp at h
            | false =>
              simp at h
              obtain ⟨he, hv, hr⟩ := h
              obtain ⟨hv1, hpg, hnk⟩ := addElementToValues_no_add e0 vals vals1 ha
              subst hr
              rw [hv1] at hp
              obtain ⟨he1, hv2, hfacts⟩ := ih vals rest' vals2 hp
              refine ⟨by rw [← he, he1], by rw [← hv, hv2], ?_⟩
              intro e hmem
              rcases List.mem_cons.1 hmem with heq1 | hmem2
              · simp at heq1
                subst heq1
                exact ⟨hpg, fun _ => hnk⟩
              · exact hfacts e hmem2
      · rw [if_neg hc] at h
        cases hp : Old.passOnce b rest vals with
        | error err => rw [hp] at h; exact absurd h (by simp)
        | ok res =>
          obtain ⟨rest', vals2, r2⟩ := res
          rw [hp] at h
          simp at h
          obtain ⟨he, hv, hr⟩ := h
          subst hr
          obtain ⟨he1, hv1, hfacts⟩ := ih vals rest' vals2 hp
          have htp : truthyA e0.pargroup = true := by
            cases htp0 : truthyA e0.pargroup with
            | true => rfl
            | false => exact absurd (by simp [htp0]) hc
          have hbf : b = false := by
            cases hb0 : b with
            | false => rfl
            | true => exact absurd (by simp [hb0]) hc
          refine ⟨by rw [← he, he1], by rw [← hv, hv1], ?_⟩
          intro e hmem
          rcases List.mem_cons.1 hmem with heq1 | hmem2
          · simp at heq1
            subst heq1
            exact ⟨htp, fun hb => by rw [hbf] at hb; exact absurd hb (by simp)⟩
          · exact hfacts e hmem2

/-- When the fixpoint loop returns: at least one sweep ran; a single
sweep means nothing changed; and every remaining (orphan) record has a
truthy pargroup which — provided a `baseIsSet` sweep ever checked it —
occurs nowhere in the final tree. -/
theorem loopOnElements_final (b : Bool) (els : List (Option Old.Elem))
    (vals : List (String × JVal)) (els' : List (Option Old.Elem))
    (vals' : List (String × JVal)) (n : Nat)
    (h : Old.loopOnElements b els vals = Except.ok (els', vals', n)) :
    1 ≤ n ∧ (n = 1 → els' = els ∧ vals' = vals) ∧
      ∀ e, some e ∈ els' → truthyA e.pargroup = true ∧
        ((b = true ∨ 2 ≤ n) → keyOfAttr e.pargroup ∉ deepKeysV (.obj vals')) := by
  induction b, els, vals using Old.loopOnElements.induct generalizing els' vals' n with
  | case1 b els vals err hp =>
    rw [Old.loopOnElements.eq_def, hp] at h
    exact absurd h (by simp)
  | case2 b els vals els1 vals1 hp =>
    rw [Old.loopOnElements.eq_def, hp] at h
    simp at h
    obtain ⟨he, hv, hn⟩ := h
    obtain ⟨hels, hvals, hfacts⟩ := passOnce_no_recur b els vals els1 vals1 hp
    refine ⟨by omega, fun _ => ⟨by rw [← he, hels], by rw [← hv, hvals]⟩, ?_⟩
    intro e hmem
    rw [← he, hels] at hmem
    obtain ⟨hpg, hfact⟩ := hfacts e hmem
    refine ⟨hpg, ?_⟩
    intro hcond
    rw [← hv, hvals]
    rcases hcond with hb | h2
    · exact hfact hb
    · omega
  | case3 b els vals els1 vals1 hp err hl ih =>
    rw [Old.loopOnElements.eq_def, hp] at h
    dsimp only at h
    rw [hl] at h
    exact absurd h (by simp)
  | case4 b els vals els1 vals1 hp els2 vals2 m hl ih =>
    rw [Old.loopOnElements.eq_def, hp] at h
    dsimp only at h
    rw [hl] at h
    simp at h
    obtain ⟨he, hv, hn⟩ := h
    obtain ⟨hm1, _, hfacts⟩ := ih els2 vals2 m hl
    refine ⟨by omega, fun h1 => absurd h1 (by omega), ?_⟩
    intro e hmem
    rw [← he] at hmem
    obtain ⟨hpg, hfact⟩ := hfacts e hmem
    refine ⟨hpg, ?_⟩
    intro _
    rw [← hv]
    exact hfact (Or.inl rfl)

/-- Claim C2 as amended (the orphan half, which holds): whenever the
Strategy B build returns, every record in the orphan report carries a
truthy pargroup, and that pargroup does not occur as a key anywhere in
the returned tree, at any depth; `displayErrors` reports exactly the
never-consumed records, one entry each, and their values never entered
the tree.  (The other half of the original claim — that every consumed
record's value is included — is refuted by `c2_counterexample`.) -/
theorem c2_orphans_amended (elems : List Old.Elem) (vals : List (String × JVal))
    (orphans : List Old.Elem)
    (h : Old.gatherTheValues elems = Except.ok (vals, orphans)) :
    ∀ e ∈ orphans, truthyA e.pargroup = true ∧
      keyOfAttr e.pargroup ∉ deepKeysV (.obj vals) := by
  unfold Old.gatherTheValues at h
  cases hl : Old.loopOnElements false (elems.map some) [] with
  | error err => rw [hl] at h; exact absurd h (by simp)
  | ok res =>
    obtain ⟨els', vals0, n⟩ := res
    rw [hl] at h
    simp at h
    obtain ⟨hv, ho⟩ := h
    intro e he
    have hmem : some e ∈ els' := by
      rw [← ho] at he
      simp [Old.displayErrors, List.mem_filterMap] at he
      exact he
    obtain ⟨hn1, hone, hfacts⟩ :=
      loopOnElements_final false (elems.map some) [] els' vals0 n hl
    obtain ⟨hpg, hfact⟩ := hfacts e hmem
    refine ⟨hpg, ?_⟩
    rcases Nat.lt_or_ge n 2 with h2 | h2
    · have hn : n = 1 := by omega
      obtain ⟨hels, hvals⟩ := hone hn
      rw [← hv, hvals]
      simp [deepKeysV_obj_nil]
    · rw [← hv]
      exact hfact (Or.inr h2)

/-- Counterexample for C2: two records, the first establishing
`{p: {g: "v1"}}`, the second carrying pargroup "p" (which appears as a
key), group "g" and value "v2".  Its pargroup resolves, so it is consumed
with no orphan diagnostic — but the write lands on the leaf already at
`p.g` and JS silently discards a property assignment on a string
primitive, so "v2" is missing from the returned tree.  This refutes
"all other records' values are included". -/
theorem c2_counterexample :
    Old.gatherTheValues [⟨some "g", "v1", Attr.str "p", Attr.absent⟩,
        ⟨some "n", "v2", Attr.str "g", Attr.str "p"⟩]
      = Except.ok ([("p", JVal.obj [("g", JVal.str "v1")])], []) ∧
    "v2" ∉ leavesV (JVal.obj [("p", JVal.obj [("g", JVal.str "v1")])]) ∧
    "p" ∈ deepKeysV (JVal.obj [("p", JVal.obj [("g", JVal.str "v1")])]) := by
  refine ⟨?_, ?_, ?_⟩
  · have hscan : Old.scanFields ⟨some "n", "v2", Attr.str "g", Attr.str "p"⟩
        [("p", JVal.obj [("g", JVal.str "v1")])]
        = .ok ([("p", JVal.obj [("g", JVal.str "v1")])], true) := by
      rw [Old.scanFields.eq_def]
      simp [lookupKey, truthyVal, keyOfAttr]
    have hadd : Old.addElementToValues ⟨some "n", "v2", Attr.str "g", Attr.str "p"⟩
        [("p", JVal.obj [("g", JVal.str "v1")])]
        = .ok ([("p", JVal.obj [("g", JVal.str "v1")])], true) := by
      simp [Old.addElementToValues, truthyA, hscan]
    have hp2 : Old.passOnce true
        [none, some ⟨some "n", "v2", Attr.str "g", Attr.str "p"⟩]
        [("p", JVal.obj [("g", JVal.str "v1")])]
        = .ok ([none, none], [("p", JVal.obj [("g", JVal.str "v1")])], true) := by
      simp [Old.passOnce, hadd, truthyA]
    have hloop : Old.loopOnElements false
        [some ⟨some "g", "v1", Attr.str "p", Attr.absent⟩,
         some ⟨some "n", "v2", Attr.str "g", Attr.str "p"⟩] []
        = .ok ([none, none], [("p", JVal.obj [("g", JVal.str "v1")])], 3) := by
      rw [Old.loopOnElements.eq_def]
      rw [show Old.passOnce false
          [some ⟨some "g", "v1", Attr.str "p", Attr.absent⟩,
           some ⟨some "n", "v2", Attr.str "g", Attr.str "p"⟩] []
          = .ok ([none, some ⟨some "n", "v2", Attr.str "g", Attr.str "p"⟩],
              [("p", JVal.obj [("g", JVal.str "v1")])], true) from rfl]
      dsimp only
      rw [Old.loopOnElements.eq_def, hp2]
      dsimp only
      rw [Old.loopOnElements.eq_def]
      rw [show Old.passOnce true [none, none] [("p", JVal.obj [("g", JVal.str "v1")])]
          = .ok ([none, none], [("p", JVal.obj [("g", JVal.str "v1")])], false) from rfl]
    simp [Old.gatherTheValues, hloop, Old.displayErrors]
  · simp [leavesV_obj_cons, leavesV_obj_nil, leavesV]
  · rw [deepKeysV_obj_cons]
    simp

/-- Witness for C5 (amended): the single-record run executes 2 passes,
within the bound of 1 record + 1. -/
theorem c5_fixpoint_pass_bound_witness :
    Old.loopOnElements false [some ⟨some "x", "v", Attr.absent, Attr.absent⟩] []
      = Except.ok ([none], [("x", JVal.str "v")], 2) ∧
    (2 : Nat) ≤ Old.countSome [some ⟨some "x", "v", Attr.absent, Attr.absent⟩] + 1 := by
  have hloop : Old.loopOnElements false [some ⟨some "x", "v", Attr.absent, Attr.absent⟩] []
      = Except.ok ([none], [("x", JVal.str "v")], 2) := by
    rw [Old.loopOnElements.eq_def]
    rw [show Old.passOnce false [some ⟨some "x", "v", Attr.absent, Attr.absent⟩] []
      = .ok ([none], [("x", JVal.str "v")], true) from rfl]
    dsimp only
    rw [Old.loopOnElements.eq_def]
    rw [show Old.passOnce true [none] [("x", JVal.str "v")]
      = .ok ([none], [("x", JVal.str "v")], false) from rfl]
  exact ⟨hloop, c5_fixpoint_pass_bound _ _ _ _ _ _ hloop⟩

theorem count_leavesV_setKey_some (o : List (String × JVal)) (k : String)
    (v w : JVal) (s : String) (hl : lookupKey o k = some w) :
    (leavesV (.obj (setKey o k v))).count s + (leavesV w).count s
      = (leavesV (.obj o)).count s + (leavesV v).count s := by
  induction o with
  | nil => simp [lookupKey] at hl
  | cons hd rest ih =>
    obtain ⟨k1, v1⟩ := hd
    by_cases h1 : k1 = k
    · rw [lookupKey, if_pos h1] at hl
      simp at hl
      subst hl
      rw [show setKey ((k1, v1) :: rest) k v = (k1, v) :: rest from by simp [setKey, h1]]
      rw [leavesV_obj_cons, leavesV_obj_cons, List.count_append, List.count_append]
      omega
    · rw [lookupKey, if_neg h1] at hl
      rw [show setKey ((k1, v1) :: rest) k v = (k1, v1) :: setKey rest k v from by
        simp [setKey, h1]]
      rw [leavesV_obj_cons, leavesV_obj_cons, List.count_append, List.count_append]
      have hih := ih hl
      omega

theorem count_leavesV_setKey_none (o : List (String × JVal)) (k : String)
    (v : JVal) (s : String) (hl : lookupKey o k = none) :
    (leavesV (.obj (setKey o k v))).count s
      = (leavesV (.obj o)).count s + (leavesV v).count s := by
  induction o with
  | nil =>
    rw [show setKey ([] : List (String × JVal)) k v = [(k, v)] from rfl,
      leavesV_obj_cons, leavesV_obj_nil]
    simp
  | cons hd rest ih =>
    obtain ⟨k1, v1⟩ := hd
    by_cases h1 : k1 = k
    · rw [lookupKey, if_pos h1] at hl
      exact absurd hl (by simp)
    · rw [lookupKey, if_neg h1] at hl
      rw [show setKey ((k1, v1) :: rest) k v = (k1, v1) :: setKey rest k v from by
        simp [setKey, h1]]
      rw [leavesV_obj_cons, leavesV_obj_cons, List.count_append, List.count_append]
      have hih := ih hl
      omega

theorem count_leavesV_mergeObjects (o1 o2 : List (String × JVal)) (s : String) :
    (leavesV (.obj (Mod.mergeObjects o1 o2))).count s
      ≤ (leavesV (.obj o1)).count s + (leavesV (.obj o2)).count s := by
  induction o1, o2 using Mod.mergeObjects.induct with
  | case1 o1 =>
    rw [Mod.mergeObjects.eq_def]
    simp [leavesV_obj_nil]
  | case2 o1 k rest f1 f2 hl ih1 ih2 =>
    rw [Mod.mergeObjects.eq_def]
    simp only [hl]
    rw [leavesV_obj_cons, List.count_append]
    have hkey := count_leavesV_setKey_some o1 k
      (.obj (Mod.mergeObjects f1 f2)) (.obj f1) s hl
    omega
  | case3 o1 k v2 rest hne ih =>
    have hmerge : Mod.mergeObjects o1 ((k, v2) :: rest)
        = Mod.mergeObjects (setKey o1 k v2) rest := by
      rw [Mod.mergeObjects.eq_def]
      rcases hl : lookupKey o1 k with _ | w
      · cases v2 <;> simp [hl]
      · cases w with
        | str t => cases v2 <;> simp [hl]
        | obj f1 =>
          cases v2 with
          | str t => simp [hl]
          | obj f2 => exact (hne f1 f2 hl rfl).elim
    rw [hmerge, leavesV_obj_cons, List.count_append]
    rcases hl : lookupKey o1 k with _ | w
    · have hkey := count_leavesV_setKey_none o1 k v2 s hl
      omega
    · have hkey := count_leavesV_setKey_some o1 k v2 w s hl
      omega

theorem count_leavesV_buildNestedObject (ks : List String) (v : JVal) (s : String) :
    (leavesV (.obj (Mod.buildNestedObject ks v))).count s ≤ (leavesV v).count s := by
  induction ks with
  | nil => simp [Mod.buildNestedObject, leavesV_obj_nil]
  | cons k ks ih =>
    cases ks with
    | nil =>
      rw [show Mod.buildNestedObject [k] v = [(k, v)] from rfl,
        leavesV_obj_cons, leavesV_obj_nil, List.count_append]
      simp
    | cons k2 ks2 =>
      rw [show Mod.buildNestedObject (k :: k2 :: ks2) v
          = [(k, .obj (Mod.buildNestedObject (k2 :: ks2) v))] from rfl,
        leavesV_obj_cons, leavesV_obj_nil, List.count_append]
      simpa using ih

theorem groupValues_step_count (acc : List (String × JVal)) (vo : Mod.ValObj)
    (s : String) :
    (leavesV (.obj (if truthyA vo.group then
        Mod.mergeObjects acc
          (Mod.buildNestedObject (splitChar ':' (keyOfAttr vo.group))
            (.obj (setKey [] (keyOfAttr vo.name) (.str vo.value))))
      else setKey acc (keyOfAttr vo.name) (.str vo.value)))).count s
      ≤ (leavesV (.obj acc)).count s + (if vo.value = s then 1 else 0) := by
  have hval : (leavesV (JVal.obj (setKey [] (keyOfAttr vo.name)
      (JVal.str vo.value)))).count s = if vo.value = s then 1 else 0 := by
    rw [show setKey [] (keyOfAttr vo.name) (JVal.str vo.value)
        = [(keyOfAttr vo.name, JVal.str vo.value)] from rfl,
      leavesV_obj_cons, leavesV_obj_nil]
    by_cases hv : vo.value = s <;> simp [leavesV, List.count_cons, hv]
  by_cases hg : truthyA vo.group = true
  · rw [if_pos hg]
    have h1 := count_leavesV_mergeObjects acc
      (Mod.buildNestedObject (splitChar ':' (keyOfAttr vo.group))
        (.obj (setKey [] (keyOfAttr vo.name) (.str vo.value)))) s
    have h2 := count_leavesV_buildNestedObject (splitChar ':' (keyOfAttr vo.group))
      (.obj (setKey [] (keyOfAttr vo.name) (.str vo.value))) s
    rw [hval] at h2
    by_cases hv : vo.value = s
    · rw [if_pos hv] at h2 ⊢
      omega
    · rw [if_neg hv] at h2 ⊢
      omega
  · rw [if_neg hg]
    rcases hl : lookupKey acc (keyOfAttr vo.name) with _ | w
    · have hk := count_leavesV_setKey_none acc (keyOfAttr vo.name)
        (JVal.str vo.value) s hl
      have hv2 : (leavesV (JVal.str vo.value)).count s
          = if vo.value = s then 1 else 0 := by
        by_cases hv : vo.value = s <;> simp [leavesV, List.count_cons, hv]
      rw [hv2] at hk
      omega
    · have hk := count_leavesV_setKey_some acc (keyOfAttr vo.name)
        (JVal.str vo.value) w s hl
      have hv2 : (leavesV (JVal.str vo.value)).count s
          = if vo.value = s then 1 else 0 := by
        by_cases hv : vo.value = s <;> simp [leavesV, List.count_cons, hv]
      rw [hv2] at hk
      by_cases hv : vo.value = s
      · rw [if_pos hv] at hk ⊢
        omega
      · rw [if_neg hv] at hk ⊢
        omega

theorem groupValues_count (objs : List Mod.ValObj) (s : String) :
    (leavesV (.obj (Mod.groupValues objs))).count s
      ≤ (objs.filter (fun vo => vo.value = s)).length := by
  have hgen : ∀ (l : List Mod.ValObj) (acc : List (String × JVal)),
      (leavesV (.obj (l.foldl (fun vals_struct vo =>
        if truthyA vo.group then
          Mod.mergeObjects vals_struct
            (Mod.buildNestedObject (splitChar ':' (keyOfAttr vo.group))
              (.obj (setKey [] (keyOfAttr vo.name) (.str vo.value))))
        else setKey vals_struct (keyOfAttr vo.name) (.str vo.value)) acc))).count s
        ≤ (leavesV (.obj acc)).count s
          + (l.filter (fun vo => vo.value = s)).length := by
    intro l
    induction l with
    | nil =>
      intro acc
      simp
    | cons vo rest ih =>
      intro acc
      rw [List.foldl_cons]
      have hr := ih (if truthyA vo.group then
          Mod.mergeObjects acc
            (Mod.buildNestedObject (splitChar ':' (keyOfAttr vo.group))
              (.obj (setKey [] (keyOfAttr vo.name) (.str vo.value))))
        else setKey acc (keyOfAttr vo.name) (.str vo.value))
      have hstep := groupValues_step_count acc vo s
      by_cases hv : vo.value = s
      · have hflt : ((vo :: rest).filter (fun vo => vo.value = s)).length
            = (rest.filter (fun vo => vo.value = s)).length + 1 := by
          simp [List.filter_cons, hv]
        rw [hflt]
        rw [if_pos hv] at hstep
        omega
      · have hflt : ((vo :: rest).filter (fun vo => vo.value = s)).length
            = (rest.filter (fun vo => vo.value = s)).length := by
          simp [List.filter_cons, hv]
        rw [hflt]
        rw [if_neg hv] at hstep
        omega
  have h0 := hgen objs []
  rw [leavesV_obj_nil] at h0
  simpa [Mod.groupValues] using h0

theorem scanFields_leaves_aux (e : Old.Elem) :
    ∀ (n : Nat) (f : List (String × JVal)), sizeOf f ≤ n →
      ∀ f' a, Old.scanFields e f = Except.ok (f', a) →
        ∀ s, s ∈ leavesV (.obj f') → s ∈ leavesV (.obj f) ∨ s = Old.Elem.val e := by
  intro n
  induction n with
  | zero =>
    intro f hsz
    exact absurd hsz (by cases f <;> simp)
  | succ n ih =>
    intro f hsz f' a h
    match f with
    | [] =>
      rw [Old.scanFields.eq_def] at h
      simp at h
      obtain ⟨hf, -⟩ := h
      subst hf
      intro s hs
      rw [leavesV_obj_nil] at hs
      exact absurd hs (by simp)
    | (k, v) :: rest =>
      rw [Old.scanFields.eq_def] at h
      dsimp only at h
      by_cases hk : k = keyOfAttr e.pargroup
      · rw [if_pos hk] at h
        cases v with
        | obj f0 =>
          dsimp only at h
          have hF : ∀ t, t ∈ leavesV (.obj
              (if truthyVal (lookupKey f0 (keyOfAttr e.group)) = true then f0
               else setKey f0 (keyOfAttr e.group) (JVal.obj []))) →
              t ∈ leavesV (.obj f0) := by
            intro t ht
            by_cases htr : truthyVal (lookupKey f0 (keyOfAttr e.group)) = true
            · rwa [if_pos htr] at ht
            · rw [if_neg htr] at ht
              rcases leavesV_setKey _ _ _ t ht with h1 | h1
              · exact h1
              · simp [leavesV] at h1
          rcases hl : lookupKey
              (if truthyVal (lookupKey f0 (keyOfAttr e.group)) = true then f0
               else setKey f0 (keyOfAttr e.group) (JVal.obj []))
              (keyOfAttr e.group) with _ | w
          · rw [hl] at h
            exact absurd h (by simp)
          · cases w with
            | str t =>
              rw [hl] at h
              simp at h
              obtain ⟨hf, -⟩ := h
              subst hf
              intro s hs
              rw [leavesV_obj_cons] at hs
              rw [leavesV_obj_cons]
              rcases List.mem_append.1 hs with hs1 | hs1
              · exact Or.inl (List.mem_append.2 (Or.inl (hF s hs1)))
              · exact Or.inl (List.mem_append.2 (Or.inr hs1))
            | obj w0 =>
              rw [hl] at h
              simp at h
              obtain ⟨hf, -⟩ := h
              subst hf
              intro s hs
              rw [leavesV_obj_cons] at hs
              rw [leavesV_obj_cons]
              rcases List.mem_append.1 hs with hs1 | hs1
              · rcases leavesV_setKey _ _ _ s hs1 with h1 | h1
                · exact Or.inl (List.mem_append.2 (Or.inl (hF s h1)))
                · rcases leavesV_setKey _ _ _ s h1 with h2 | h2
                  · exact Or.inl (List.mem_append.2 (Or.inl (hF s
                      (leavesV_lookup _ _ _ hl s h2))))
                  · right
                    simpa [leavesV] using h2
              · exact Or.inl (List.mem_append.2 (Or.inr hs1))
        | str t =>
          dsimp only at h
          by_cases hd : Old.strPropDefined t (keyOfAttr e.group) = true
          · rw [if_pos hd] at h
            simp at h
            obtain ⟨hf, -⟩ := h
            subst hf
            intro s hs
            exact Or.inl hs
          · rw [if_neg hd] at h
            exact absurd h (by simp)
      · rw [if_neg hk] at h
        cases v with
        | obj f0 =>
          dsimp only at h
          cases hf0 : Old.scanFields e f0 with
          | error err => rw [hf0] at h; exact absurd h (by simp)
          | ok res0 =>
            obtain ⟨f0', a1⟩ := res0
            rw [hf0] at h
            dsimp only at h
            cases hr : Old.scanFields e rest with
            | error err => rw [hr] at h; exact absurd h (by simp)
            | ok resr =>
              obtain ⟨rest', a2⟩ := resr
              rw [hr] at h
              dsimp only at h
              simp at h
              obtain ⟨hfst, -⟩ := h
              have hsz0 : sizeOf f0 ≤ n := by
                simp at hsz
                omega
              have hszr : sizeOf rest ≤ n := by
                simp at hsz
                omega
              have h1 := ih f0 hsz0 f0' a1 hf0
              have h2 := ih rest hszr rest' a2 hr
              intro s hs
              rw [← hfst] at hs
              rw [leavesV_obj_cons] at hs
              rw [leavesV_obj_cons]
              rcases List.mem_append.1 hs with hs1 | hs1
              · rcases h1 s hs1 with hh | hh
                · exact Or.inl (List.mem_append.2 (Or.inl hh))
                · exact Or.inr hh
              · rcases h2 s hs1 with hh | hh
                · exact Or.inl (List.mem_append.2 (Or.inr hh))
                · exact Or.inr hh
        | str t =>
          dsimp only at h
          cases hr : Old.scanFields e rest with
          | error err => rw [hr] at h; exact absurd h (by simp)
          | ok resr =>
            obtain ⟨rest', a2⟩ := resr
            rw [hr] at h
            dsimp only at h
            simp at h
            obtain ⟨hfst, -⟩ := h
            have hszr : sizeOf rest ≤ n := by
              simp at hsz
              omega
            have h2 := ih rest hszr rest' a2 hr
            intro s hs
            rw [← hfst] at hs
            rw [leavesV_obj_cons] at hs
            rw [leavesV_obj_cons]
            rcases List.mem_append.1 hs with hs1 | hs1
            · exact Or.inl (List.mem_append.2 (Or.inl hs1))
            · rcases h2 s hs1 with hh | hh
              · exact Or.inl (List.mem_append.2 (Or.inr hh))
              · exact Or.inr hh

theorem scanFields_leaves (e : Old.Elem) (f f' : List (String × JVal)) (a : Bool)
    (h : Old.scanFields e f = Except.ok (f', a)) :
    ∀ s, s ∈ leavesV (.obj f') → s ∈ leavesV (.obj f) ∨ s = Old.Elem.val e :=
  scanFields_leaves_aux e (sizeOf f) f (Nat.le_refl _) f' a h

theorem addElementToValues_leaves (e : Old.Elem) (vals vals' : List (String × JVal))
    (a : Bool) (h : Old.addElementToValues e vals = Except.ok (vals', a)) :
    ∀ s, s ∈ leavesV (.obj vals') → s ∈ leavesV (.obj vals) ∨ s = Old.Elem.val e := by
  unfold Old.addElementToValues at h
  by_cases hp : truthyA e.pargroup = true
  · rw [if_pos hp] at h
    exact scanFields_leaves e vals vals' a h
  · rw [if_neg hp] at h
    by_cases hg : truthyA e.group = true
    · rw [if_pos hg] at h
      dsimp only at h
      have hF : ∀ t, t ∈ leavesV (.obj
          (if truthyVal (lookupKey vals (keyOfAttr e.group)) = true then vals
           else setKey vals (keyOfAttr e.group) (JVal.obj []))) →
          t ∈ leavesV (.obj vals) := by
        intro t ht
        by_cases htr : truthyVal (lookupKey vals (keyOfAttr e.group)) = true
        · rwa [if_pos htr] at ht
        · rw [if_neg htr] at ht
          rcases leavesV_setKey _ _ _ t ht with h1 | h1
          · exact h1
          · simp [leavesV] at h1
      rcases hl : lookupKey
          (if truthyVal (lookupKey vals (keyOfAttr e.group)) = true then vals
           else setKey vals (keyOfAttr e.group) (JVal.obj []))
          (keyOfAttr e.group) with _ | w
      · rw [hl] at h
        exact absurd h (by simp)
      · cases w with
        | str t =>
          rw [hl] at h
          simp at h
          obtain ⟨hf, -⟩ := h
          subst hf
          intro s hs
          exact Or.inl (hF s hs)
        | obj w0 =>
          rw [hl] at h
          simp at h
          obtain ⟨hf, -⟩ := h
          subst hf
          intro s hs
          rcases leavesV_setKey _ _ _ s hs with h1 | h1
          · exact Or.inl (hF s h1)
          · rcases leavesV_setKey _ _ _ s h1 with h2 | h2
            · exact Or.inl (hF s (leavesV_lookup _ _ _ hl s h2))
            · right
              simpa [leavesV] using h2
    · rw [if_neg hg] at h
      simp at h
      obtain ⟨hf, -⟩ := h
      subst hf
      intro s hs
      rcases leavesV_setKey _ _ _ s hs with h1 | h1
      · exact Or.inl h1
      · right
        simpa [leavesV] using h1

theorem passOnce_leaves (b : Bool) (els : List (Option Old.Elem))
    (vals : List (String × JVal)) (els' : List (Option Old.Elem))
    (vals' : List (String × JVal)) (r : Bool)
    (h : Old.passOnce b els vals = Except.ok (els', vals', r)) :
    ∀ s, s ∈ leavesV (.obj vals') →
      s ∈ leavesV (.obj vals) ∨ ∃ e, some e ∈ els ∧ Old.Elem.val e = s := by
  induction els generalizing vals els' vals' r with
  | nil =>
    simp [Old.passOnce] at h
    obtain ⟨-, hv, -⟩ := h
    subst hv
    intro s hs
    exact Or.inl hs
  | cons hd rest ih =>
    cases hd with
    | none =>
      simp only [Old.passOnce] at h
      cases hp : Old.passOnce b rest vals with
      | error err => rw [hp] at h; exact absurd h (by simp)
      | ok res =>
        obtain ⟨rest', vals2, r2⟩ := res
        rw [hp] at h
        simp at h
        obtain ⟨-, hv, -⟩ := h
        subst hv
        intro s hs
        rcases ih _ _ _ _ hp s hs with hh | ⟨e1, hm, hval⟩
        · exact Or.inl hh
        · exact Or.inr ⟨e1, List.mem_cons_of_mem _ hm, hval⟩
    | some e0 =>
      simp only [Old.passOnce] at h
      by_cases hc : (!truthyA e0.pargroup || b) = true
      · rw [if_pos hc] at h
        cases ha : Old.addElementToValues e0 vals with
        | error err => rw [ha] at h; exact absurd h (by simp)
        | ok resa =>
          obtain ⟨vals1, added⟩ := resa
          rw [ha] at h
          dsimp only at h
          cases hp : Old.passOnce b rest vals1 with
          | error err => rw [hp] at h; exact absurd h (by simp)
          | ok res =>
            obtain ⟨rest', vals2, r2⟩ := res
            rw [hp] at h
            cases added with
            | true =>
              simp at h
              obtain ⟨-, hv, -⟩ := h
              subst hv
              intro s hs
              rcases ih _ _ _ _ hp s hs with hh | ⟨e1, hm, hval⟩
              · rcases addElementToValues_leaves e0 vals vals1 true ha s hh with hh2 | hh2
                · exact Or.inl hh2
                · exact Or.inr ⟨e0, List.mem_cons_self _ _, hh2.symm⟩
              · exact Or.inr ⟨e1, List.mem_cons_of_mem _ hm, hval⟩
            | false =>
              simp at h
              obtain ⟨-, hv, -⟩ := h
              subst hv
              intro s hs
              rcases ih _ _ _ _ hp s hs with hh | ⟨e1, hm, hval⟩
              · rcases addElementToValues_leaves e0 vals vals1 false ha s hh with hh2 | hh2
                · exact Or.inl hh2
                · exact Or.inr ⟨e0, List.mem_cons_self _ _, hh2.symm⟩
              · exact Or.inr ⟨e1, List.mem_cons_of_mem _ hm, hval⟩
      · rw [if_neg hc] at h
        cases hp : Old.passOnce b rest vals with
        | error err => rw [hp] at h; exact absurd h (by simp)
        | ok res =>
          obtain ⟨rest', vals2, r2⟩ := res
          rw [hp] at h
          simp at h
          obtain ⟨-, hv, -⟩ := h
          subst hv
          intro s hs
          rcases ih _ _ _ _ hp s hs with hh | ⟨e1, hm, hval⟩
          · exact Or.inl hh
          · exact Or.inr ⟨e1, List.mem_cons_of_mem _ hm, hval⟩

theorem passOnce_elems (b : Bool) (els : List (Option Old.Elem))
    (vals : List (String × JVal)) (els' : List (Option Old.Elem))
    (vals' : List (String × JVal)) (r : Bool)
    (h : Old.passOnce b els vals = Except.ok (els', vals', r)) :
    ∀ e : Old.Elem, some e ∈ els' → some e ∈ els := by
  induction els generalizing vals els' vals' r with
  | nil =>
    simp [Old.passOnce] at h
    obtain ⟨he, -⟩ := h
    subst he
    intro e hmem
    simp at hmem
  | cons hd rest ih =>
    cases hd with
    | none =>
      simp only [Old.passOnce] at h
      cases hp : Old.passOnce b rest vals with
      | error err => rw [hp] at h; exact absurd h (by simp)
      | ok res =>
        obtain ⟨rest', vals2, r2⟩ := res
        rw [hp] at h
        simp at h
        obtain ⟨he, -⟩ := h
        subst he
        intro e hmem
        rcases List.mem_cons.1 hmem with heq | hmem2
        · exact absurd heq (by simp)
        · exact List.mem_cons_of_mem _ (ih _ _ _ _ hp e hmem2)
    | some e0 =>
      simp only [Old.passOnce] at h
      by_cases hc : (!truthyA e0.pargroup || b) = true
      · rw [if_pos hc] at h
        cases ha : Old.addElementToValues e0 vals with
        | error err => rw [ha] at h; exact absurd h (by simp)
        | ok resa =>
          obtain ⟨vals1, added⟩ := resa
          rw [ha] at h
          dsimp only at h
          cases hp : Old.passOnce b rest vals1 with
          | error err => rw [hp] at h; exact absurd h (by simp)
          | ok res =>
            obtain ⟨rest', vals2, r2⟩ := res
            rw [hp] at h
            cases added with
            | true =>
              simp at h
              obtain ⟨he, -⟩ := h
              subst he
              intro e hmem
              rcases List.mem_cons.1 hmem with heq | hmem2
              · exact absurd heq (by simp)
              · exact List.mem_cons_of_mem _ (ih _ _ _ _ hp e hmem2)
            | false =>
              simp at h
              obtain ⟨he, -⟩ := h
              subst he
              intro e hmem
              rcases List.mem_cons.1 hmem with heq | hmem2
              · rw [heq]
                exact List.mem_cons_self _ _
              · exact List.mem_cons_of_mem _ (ih _ _ _ _ hp e hmem2)
      · rw [if_neg hc] at h
        cases hp : Old.passOnce b rest vals with
        | error err => rw [hp] at h; exact absurd h (by simp)
        | ok res =>
          obtain ⟨rest', vals2, r2⟩ := res
          rw [hp] at h
          simp at h
          obtain ⟨he, -⟩ := h
          subst he
          intro e hmem
          rcases List.mem_cons.1 hmem with heq | hmem2
          · rw [heq]
            exact List.mem_cons_self _ _
          · exact List.mem_cons_of_mem _ (ih _ _ _ _ hp e hmem2)

theorem loopOnElements_leaves (b : Bool) (els : List (Option Old.Elem))
    (vals : List (String × JVal)) (els2 : List (Option Old.Elem))
    (vals2 : List (String × JVal)) (n : Nat)
    (h : Old.loopOnElements b els vals = Except.ok (els2, vals2, n)) :
    ∀ s, s ∈ leavesV (.obj vals2) →
      s ∈ leavesV (.obj vals) ∨ ∃ e, some e ∈ els ∧ Old.Elem.val e = s := by
  induction b, els, vals using Old.loopOnElements.induct generalizing els2 vals2 n with
  | case1 b els vals err hp =>
    rw [Old.loopOnElements.eq_def, hp] at h
    exact absurd h (by simp)
  | case2 b els vals els1 vals1 hp =>
    rw [Old.loopOnElements.eq_def, hp] at h
    simp at h
    obtain ⟨-, hv, -⟩ := h
    subst hv
    exact passOnce_leaves b els vals els1 vals1 false hp
  | case3 b els vals els1 vals1 hp err hl ih =>
    rw [Old.loopOnElements.eq_def, hp] at h
    dsimp only at h
    rw [hl] at h
    exact absurd h (by simp)
  | case4 b els vals els1 vals1 hp elsr valsr m hl ih =>
    rw [Old.loopOnElements.eq_def, hp] at h
    dsimp only at h
    rw [hl] at h
    simp at h
    obtain ⟨he, hv, -⟩ := h
    subst he
    subst hv
    intro s hs
    rcases ih elsr valsr m hl s hs with h1 | ⟨e1, hmem, hval⟩
    · rcases passOnce_leaves b els vals els1 vals1 true hp s h1 with h2 | h2
      · exact Or.inl h2
      · exact Or.inr h2
    · exact Or.inr ⟨e1, passOnce_elems b els vals els1 vals1 true hp e1 hmem, hval⟩

theorem gatherTheValues_leaves (elems : List Old.Elem) (vals : List (String × JVal))
    (orphans : List Old.Elem)
    (h : Old.gatherTheValues elems = Except.ok (vals, orphans)) :
    ∀ s, s ∈ leavesV (.obj vals) → ∃ e ∈ elems, Old.Elem.val e = s := by
  unfold Old.gatherTheValues at h
  cases hl : Old.loopOnElements false (elems.map some) [] with
  | error err => rw [hl] at h; exact absurd h (by simp)
  | ok res =>
    obtain ⟨els', vals0, n⟩ := res
    rw [hl] at h
    simp at h
    obtain ⟨hv, -⟩ := h
    subst hv
    intro s hs
    rcases loopOnElements_leaves false (elems.map some) [] els' vals0 n hl s hs
        with h1 | ⟨e1, hmem, hval⟩
    · rw [leavesV_obj_nil] at h1
      exact absurd h1 (by simp)
    · exact ⟨e1, by simpa using hmem, hval⟩

theorem groupValues_step_leaves (acc : List (String × JVal)) (vo : Mod.ValObj) (s : String)
    (h : s ∈ leavesV (.obj (if truthyA vo.group then
        Mod.mergeObjects acc
          (Mod.buildNestedObject (splitChar ':' (keyOfAttr vo.group))
            (.obj (setKey [] (keyOfAttr vo.name) (.str vo.value))))
      else setKey acc (keyOfAttr vo.name) (.str vo.value)))) :
    s ∈ leavesV (.obj acc) ∨ s = vo.value := by
  by_cases hg : truthyA vo.group = true
  · rw [if_pos hg] at h
    rcases leavesV_mergeObjects _ _ s h with h1 | h1
    · exact Or.inl h1
    · have h2 := leavesV_buildNestedObject _ _ s h1
      right
      simpa [setKey, leavesV_obj_cons, leavesV_obj_nil, leavesV] using h2
  · rw [if_neg hg] at h
    rcases leavesV_setKey _ _ _ s h with h1 | h1
    · exact Or.inl h1
    · right
      simpa [leavesV] using h1

/-- Claim C9 as amended: neither strategy fabricates a leaf — every leaf
of a Strategy A tree is the `value` of some input record and every leaf
of a Strategy B tree is the `val` of some input record — and Strategy A
never duplicates a record's value: the number of leaves holding a given
string is at most the number of records carrying that value.
(Per-record leaf uniqueness fails in Strategy B only: see
`c9_counterexample`, where one record's value is inserted under two
different pargroup matches and appears as two leaves.) -/
theorem c9_leaves_from_records (objs : List Mod.ValObj) (s : String)
    (elems : List Old.Elem) (vals : List (String × JVal)) (orphans : List Old.Elem)
    (hg : Old.gatherTheValues elems = Except.ok (vals, orphans)) :
    ((leavesV (.obj (Mod.groupValues objs))).count s
        ≤ (objs.filter (fun vo => vo.value = s)).length) ∧
    (s ∈ leavesV (.obj (Mod.groupValues objs)) → ∃ vo ∈ objs, vo.value = s) ∧
    (s ∈ leavesV (.obj vals) → ∃ e ∈ elems, Old.Elem.val e = s) := by
  refine ⟨groupValues_count objs s, fun h => ?_,
    fun hs => gatherTheValues_leaves elems vals orphans hg s hs⟩
  have hgen : ∀ (l : List Mod.ValObj) (acc : List (String × JVal)),
      s ∈ leavesV (.obj (l.foldl (fun vals_struct vo =>
        if truthyA vo.group then
          Mod.mergeObjects vals_struct
            (Mod.buildNestedObject (splitChar ':' (keyOfAttr vo.group))
              (.obj (setKey [] (keyOfAttr vo.name) (.str vo.value))))
        else setKey vals_struct (keyOfAttr vo.name) (.str vo.value)) acc)) →
      s ∈ leavesV (.obj acc) ∨ ∃ vo ∈ l, vo.value = s := by
    intro l
    induction l with
    | nil => intro acc hs; exact Or.inl hs
    | cons vo rest ih =>
      intro acc hs
      rcases ih _ (by simpa using hs) with hacc | hex
      · rcases groupValues_step_leaves acc vo s hacc with h1 | h1
        · exact Or.inl h1
        · exact Or.inr ⟨vo, by simp, h1.symm⟩
      · obtain ⟨vo2, hmem, hval⟩ := hex
        exact Or.inr ⟨vo2, by simp [hmem], hval⟩
  rcases hgen objs [] (by simpa [Mod.groupValues] using h) with h0 | hex
  · rw [leavesV_obj_nil] at h0
    exact absurd h0 (by simp)
  · exact hex

theorem scanFields_nil (e : Old.Elem) : Old.scanFields e [] = .ok ([], false) := by
  rw [Old.scanFields.eq_def]

theorem scanFields_cons_hit_create (e : Old.Elem) (k : String)
    (f rest : List (String × JVal))
    (hk : k = keyOfAttr e.pargroup)
    (hl : lookupKey f (keyOfAttr e.group) = none) :
    Old.scanFields e ((k, JVal.obj f) :: rest)
      = .ok ((k, JVal.obj (setKey (setKey f (keyOfAttr e.group) (JVal.obj []))
          (keyOfAttr e.group)
          (JVal.obj (setKey [] (Old.keyOfName e.name) (JVal.str e.val))))) :: rest,
          true) := by
  rw [Old.scanFields.eq_def]
  dsimp only
  rw [if_pos hk]
  simp [hl, truthyVal, lookupKey_setKey_self]

theorem scanFields_cons_miss_obj (e : Old.Elem) (k : String)
    (f rest f2 rest2 : List (String × JVal)) (a1 a2 : Bool)
    (hk : ¬ k = keyOfAttr e.pargroup)
    (h1 : Old.scanFields e f = .ok (f2, a1))
    (h2 : Old.scanFields e rest = .ok (rest2, a2)) :
    Old.scanFields e ((k, JVal.obj f) :: rest)
      = .ok ((k, JVal.obj f2) :: rest2, a1 || a2) := by
  rw [Old.scanFields.eq_def]
  dsimp only
  rw [if_neg hk, h1]
  dsimp only
  rw [h2]

theorem scanFields_cons_miss_str (e : Old.Elem) (k s : String)
    (rest rest2 : List (String × JVal)) (a2 : Bool)
    (hk : ¬ k = keyOfAttr e.pargroup)
    (h2 : Old.scanFields e rest = .ok (rest2, a2)) :
    Old.scanFields e ((k, JVal.str s) :: rest)
      = .ok ((k, JVal.str s) :: rest2, a2) := by
  rw [Old.scanFields.eq_def]
  dsimp only
  rw [if_neg hk, h2]

theorem addElementToValues_pargroup (e : Old.Elem)
    (vals res : List (String × JVal)) (a : Bool)
    (hp : truthyA e.pargroup = true)
    (hs : Old.scanFields e vals = .ok (res, a)) :
    Old.addElementToValues e vals = .ok (res, a) := by
  unfold Old.addElementToValues
  rw [if_pos hp]
  exact hs

theorem passOnce_nil (b : Bool) (vals : List (String × JVal)) :
    Old.passOnce b [] vals = .ok ([], vals, false) := rfl

theorem passOnce_cons_none (b : Bool) (rest : List (Option Old.Elem))
    (vals vals' : List (String × JVal)) (rest' : List (Option Old.Elem)) (r : Bool)
    (h : Old.passOnce b rest vals = .ok (rest', vals', r)) :
    Old.passOnce b (none :: rest) vals = .ok (none :: rest', vals', r) := by
  simp only [Old.passOnce]
  rw [h]

theorem passOnce_cons_added (b : Bool) (e : Old.Elem)
    (rest : List (Option Old.Elem)) (vals vals1 vals2 : List (String × JVal))
    (rest' : List (Option Old.Elem)) (r : Bool)
    (hc : (!truthyA e.pargroup || b) = true)
    (ha : Old.addElementToValues e vals = .ok (vals1, true))
    (h : Old.passOnce b rest vals1 = .ok (rest', vals2, r)) :
    Old.passOnce b (some e :: rest) vals = .ok (none :: rest', vals2, true) := by
  simp only [Old.passOnce]
  rw [if_pos hc, ha]
  dsimp only
  rw [h]
  dsimp only
  rw [if_pos rfl]

theorem passOnce_cons_skip (b : Bool) (e : Old.Elem)
    (rest : List (Option Old.Elem)) (vals vals' : List (String × JVal))
    (rest' : List (Option Old.Elem)) (r : Bool)
    (hc : (!truthyA e.pargroup || b) = false)
    (h : Old.passOnce b rest vals = .ok (rest', vals', r)) :
    Old.passOnce b (some e :: rest) vals = .ok (some e :: rest', vals', r) := by
  simp only [Old.passOnce]
  rw [if_neg (by simp [hc]), h]

theorem passOnce_cons_noadd (b : Bool) (e : Old.Elem)
    (rest : List (Option Old.Elem)) (vals vals1 vals2 : List (String × JVal))
    (rest' : List (Option Old.Elem)) (r : Bool)
    (hc : (!truthyA e.pargroup || b) = true)
    (ha : Old.addElementToValues e vals = .ok (vals1, false))
    (h : Old.passOnce b rest vals1 = .ok (rest', vals2, r)) :
    Old.passOnce b (some e :: rest) vals = .ok (some e :: rest', vals2, r) := by
  simp only [Old.passOnce]
  rw [if_pos hc, ha]
  dsimp only
  rw [h]
  dsimp only
  rw [if_neg Bool.false_ne_true]

theorem loopOnElements_step_false (b : Bool) (els els1 : List (Option Old.Elem))
    (vals vals1 : List (String × JVal))
    (hp : Old.passOnce b els vals = .ok (els1, vals1, false)) :
    Old.loopOnElements b els vals = .ok (els1, vals1, 1) := by
  rw [Old.loopOnElements.eq_def, hp]

theorem loopOnElements_step_true (b : Bool) (els els1 els2 : List (Option Old.Elem))
    (vals vals1 vals2 : List (String × JVal)) (n : Nat)
    (hp : Old.passOnce b els vals = .ok (els1, vals1, true))
    (h : Old.loopOnElements true els1 vals1 = .ok (els2, vals2, n)) :
    Old.loopOnElements b els vals = .ok (els2, vals2, n + 1) := by
  rw [Old.loopOnElements.eq_def, hp]
  dsimp only
  rw [h]

theorem gatherTheValues_eq (elems : List Old.Elem)
    (els' : List (Option Old.Elem)) (vals : List (String × JVal)) (n : Nat)
    (h : Old.loopOnElements false (elems.map some) [] = .ok (els', vals, n)) :
    Old.gatherTheValues elems = .ok (vals, Old.displayErrors els') := by
  unfold Old.gatherTheValues
  rw [h]

/-- Witness for C2 (amended): a record whose pargroup "x" never
materializes stays in the orphan report, and "x" indeed occurs nowhere
in the returned tree. -/
theorem c2_orphans_amended_witness :
    Old.gatherTheValues [⟨some "a", "va", Attr.str "login", Attr.absent⟩,
        ⟨some "n", "v2", Attr.str "personal", Attr.str "x"⟩]
      = Except.ok ([("login", JVal.obj [("a", JVal.str "va")])],
          [⟨some "n", "v2", Attr.str "personal", Attr.str "x"⟩]) ∧
    (truthyA (Attr.str "x") = true ∧
      keyOfAttr (Attr.str "x")
        ∉ deepKeysV (JVal.obj [("login", JVal.obj [("a", JVal.str "va")])])) := by
  have hp1 : Old.passOnce false
      [some ⟨some "a", "va", Attr.str "login", Attr.absent⟩,
       some ⟨some "n", "v2", Attr.str "personal", Attr.str "x"⟩] []
      = .ok ([none, some ⟨some "n", "v2", Attr.str "personal", Attr.str "x"⟩],
          [("login", JVal.obj [("a", JVal.str "va")])], true) := rfl
  have hscan1 : Old.scanFields ⟨some "n", "v2", Attr.str "personal", Attr.str "x"⟩
      [("a", JVal.str "va")] = .ok ([("a", JVal.str "va")], false) :=
    scanFields_cons_miss_str ⟨some "n", "v2", Attr.str "personal", Attr.str "x"⟩
      "a" "va" [] [] false (by decide)
      (scanFields_nil ⟨some "n", "v2", Attr.str "personal", Attr.str "x"⟩)
  have hscan : Old.scanFields ⟨some "n", "v2", Attr.str "personal", Attr.str "x"⟩
      [("login", JVal.obj [("a", JVal.str "va")])]
      = .ok ([("login", JVal.obj [("a", JVal.str "va")])], false) :=
    scanFields_cons_miss_obj ⟨some "n", "v2", Attr.str "personal", Attr.str "x"⟩
      "login" [("a", JVal.str "va")] [] [("a", JVal.str "va")] [] false false
      (by decide) hscan1
      (scanFields_nil ⟨some "n", "v2", Attr.str "personal", Attr.str "x"⟩)
  have hadd : Old.addElementToValues ⟨some "n", "v2", Attr.str "personal", Attr.str "x"⟩
      [("login", JVal.obj [("a", JVal.str "va")])]
      = .ok ([("login", JVal.obj [("a", JVal.str "va")])], false) :=
    addElementToValues_pargroup ⟨some "n", "v2", Attr.str "personal", Attr.str "x"⟩
      [("login", JVal.obj [("a", JVal.str "va")])]
      [("login", JVal.obj [("a", JVal.str "va")])] false (by decide) hscan
  have hp2 : Old.passOnce true
      [none, some ⟨some "n", "v2", Attr.str "personal", Attr.str "x"⟩]
      [("login", JVal.obj [("a", JVal.str "va")])]
      = .ok ([none, some ⟨some "n", "v2", Attr.str "personal", Attr.str "x"⟩],
          [("login", JVal.obj [("a", JVal.str "va")])], false) :=
    passOnce_cons_none true
      [some ⟨some "n", "v2", Attr.str "personal", Attr.str "x"⟩]
      [("login", JVal.obj [("a", JVal.str "va")])]
      [("login", JVal.obj [("a", JVal.str "va")])]
      [some ⟨some "n", "v2", Attr.str "personal", Attr.str "x"⟩] false
      (passOnce_cons_noadd true ⟨some "n", "v2", Attr.str "personal", Attr.str "x"⟩
        [] [("login", JVal.obj [("a", JVal.str "va")])]
        [("login", JVal.obj [("a", JVal.str "va")])]
        [("login", JVal.obj [("a", JVal.str "va")])] [] false
        (by decide) hadd
        (passOnce_nil true [("login", JVal.obj [("a", JVal.str "va")])]))
  have hloop : Old.loopOnElements false
      [some ⟨some "a", "va", Attr.str "login", Attr.absent⟩,
       some ⟨some "n", "v2", Attr.str "personal", Attr.str "x"⟩] []
      = .ok ([none, some ⟨some "n", "v2", Attr.str "personal", Attr.str "x"⟩],
          [("login", JVal.obj [("a", JVal.str "va")])], 2) :=
    loopOnElements_step_true false
      [some ⟨some "a", "va", Attr.str "login", Attr.absent⟩,
       some ⟨some "n", "v2", Attr.str "personal", Attr.str "x"⟩]
      [none, some ⟨some "n", "v2", Attr.str "personal", Attr.str "x"⟩]
      [none, some ⟨some "n", "v2", Attr.str "personal", Attr.str "x"⟩]
      [] [("login", JVal.obj [("a", JVal.str "va")])]
      [("login", JVal.obj [("a", JVal.str "va")])] 1 hp1
      (loopOnElements_step_false true
        [none, some ⟨some "n", "v2", Attr.str "personal", Attr.str "x"⟩]
        [none, some ⟨some "n", "v2", Attr.str "personal", Attr.str "x"⟩]
        [("login", JVal.obj [("a", JVal.str "va")])]
        [("login", JVal.obj [("a", JVal.str "va")])] hp2)
  have hgather : Old.gatherTheValues [⟨some "a", "va", Attr.str "login", Attr.absent⟩,
      ⟨some "n", "v2", Attr.str "personal", Attr.str "x"⟩]
      = Except.ok ([("login", JVal.obj [("a", JVal.str "va")])],
          [⟨some "n", "v2", Attr.str "personal", Attr.str "x"⟩]) :=
    gatherTheValues_eq [⟨some "a", "va", Attr.str "login", Attr.absent⟩,
        ⟨some "n", "v2", Attr.str "personal", Attr.str "x"⟩]
      [none, some ⟨some "n", "v2", Attr.str "personal", Attr.str "x"⟩]
      [("login", JVal.obj [("a", JVal.str "va")])] 2 hloop
  exact ⟨hgather,
    c2_orphans_amended _ _ _ hgather
      ⟨some "n", "v2", Attr.str "personal", Attr.str "x"⟩ (by simp)⟩

/-- Counterexample for C9: in Strategy B, record
`{name:"n3", value:"v3", group:"g", pargroup:"p"}` is inserted under
BOTH keys named "p" (one under "a", one under "b"), because the scan
keeps walking sibling subtrees after a nested match.  The returned tree
holds the single record's value "v3" as two distinct leaves, refuting
"no single record's value appears as more than one leaf". -/
theorem c9_counterexample :
    Old.gatherTheValues
        [⟨some "na", "va", Attr.str "a", Attr.absent⟩,
         ⟨some "nb", "vb", Attr.str "b", Attr.absent⟩,
         ⟨some "n1", "v1", Attr.str "p", Attr.str "a"⟩,
         ⟨some "n2", "v2", Attr.str "p", Attr.str "b"⟩,
         ⟨some "n3", "v3", Attr.str "g", Attr.str "p"⟩]
      = Except.ok
          ([("a", JVal.obj [("na", JVal.str "va"),
              ("p", JVal.obj [("n1", JVal.str "v1"),
                ("g", JVal.obj [("n3", JVal.str "v3")])])]),
            ("b", JVal.obj [("nb", JVal.str "vb"),
              ("p", JVal.obj [("n2", JVal.str "v2"),
                ("g", JVal.obj [("n3", JVal.str "v3")])])])], []) ∧
    (leavesV (JVal.obj
        [("a", JVal.obj [("na", JVal.str "va"),
            ("p", JVal.obj [("n1", JVal.str "v1"),
              ("g", JVal.obj [("n3", JVal.str "v3")])])]),
          ("b", JVal.obj [("nb", JVal.str "vb"),
            ("p", JVal.obj [("n2", JVal.str "v2"),
              ("g", JVal.obj [("n3", JVal.str "v3")])])])])).count "v3" = 2 ∧
    (([⟨some "na", "va", Attr.str "a", Attr.absent⟩,
       ⟨some "nb", "vb", Attr.str "b", Attr.absent⟩,
       ⟨some "n1", "v1", Attr.str "p", Attr.str "a"⟩,
       ⟨some "n2", "v2", Attr.str "p", Attr.str "b"⟩,
       ⟨some "n3", "v3", Attr.str "g", Attr.str "p"⟩] :
        List Old.Elem).filter (fun r => r.val = "v3")).length = 1 := by
  refine ⟨?_, ?_, by decide⟩
  · have hscan3 : Old.scanFields ⟨some "n1", "v1", Attr.str "p", Attr.str "a"⟩
        [("a", JVal.obj [("na", JVal.str "va")]), ("b", JVal.obj [("nb", JVal.str "vb")])]
        = .ok ([("a", JVal.obj [("na", JVal.str "va"),
                  ("p", JVal.obj [("n1", JVal.str "v1")])]),
                ("b", JVal.obj [("nb", JVal.str "vb")])], true) :=
      scanFields_cons_hit_create _ "a" [("na", JVal.str "va")]
        [("b", JVal.obj [("nb", JVal.str "vb")])] rfl rfl
    have h4a : Old.scanFields ⟨some "n2", "v2", Attr.str "p", Attr.str "b"⟩
        [("n1", JVal.str "v1")] = .ok ([("n1", JVal.str "v1")], false) :=
      scanFields_cons_miss_str _ "n1" "v1" [] [] false (by decide) (scanFields_nil _)
    have h4p : Old.scanFields ⟨some "n2", "v2", Attr.str "p", Attr.str "b"⟩
        [("p", JVal.obj [("n1", JVal.str "v1")])]
        = .ok ([("p", JVal.obj [("n1", JVal.str "v1")])], false) :=
      scanFields_cons_miss_obj _ "p" [("n1", JVal.str "v1")] [] [("n1", JVal.str "v1")] []
        false false (by decide) h4a (scanFields_nil _)
    have h4A : Old.scanFields ⟨some "n2", "v2", Attr.str "p", Attr.str "b"⟩
        [("na", JVal.str "va"), ("p", JVal.obj [("n1", JVal.str "v1")])]
        = .ok ([("na", JVal.str "va"), ("p", JVal.obj [("n1", JVal.str "v1")])], false) :=
      scanFields_cons_miss_str _ "na" "va" [("p", JVal.obj [("n1", JVal.str "v1")])]
        [("p", JVal.obj [("n1", JVal.str "v1")])] false (by decide) h4p
    have h4B : Old.scanFields ⟨some "n2", "v2", Attr.str "p", Attr.str "b"⟩
        [("b", JVal.obj [("nb", JVal.str "vb")])]
        = .ok ([("b", JVal.obj [("nb", JVal.str "vb"),
            ("p", JVal.obj [("n2", JVal.str "v2")])])], true) :=
      scanFields_cons_hit_create _ "b" [("nb", JVal.str "vb")] [] rfl rfl
    have hscan4 : Old.scanFields ⟨some "n2", "v2", Attr.str "p", Attr.str "b"⟩
        [("a", JVal.obj [("na", JVal.str "va"), ("p", JVal.obj [("n1", JVal.str "v1")])]),
         ("b", JVal.obj [("nb", JVal.str "vb")])]
        = .ok ([("a", JVal.obj [("na", JVal.str "va"),
                  ("p", JVal.obj [("n1", JVal.str "v1")])]),
                ("b", JVal.obj [("nb", JVal.str "vb"),
                  ("p", JVal.obj [("n2", JVal.str "v2")])])], true) :=
      scanFields_cons_miss_obj _ "a"
        [("na", JVal.str "va"), ("p", JVal.obj [("n1", JVal.str "v1")])]
        [("b", JVal.obj [("nb", JVal.str "vb")])]
        [("na", JVal.str "va"), ("p", JVal.obj [("n1", JVal.str "v1")])]
        [("b", JVal.obj [("nb", JVal.str "vb"), ("p", JVal.obj [("n2", JVal.str "v2")])])]
        false true (by decide) h4A h4B
    have h5pA : Old.scanFields ⟨some "n3", "v3", Attr.str "g", Attr.str "p"⟩
        [("p", JVal.obj [("n1", JVal.str "v1")])]
        = .ok ([("p", JVal.obj [("n1", JVal.str "v1"),
            ("g", JVal.obj [("n3", JVal.str "v3")])])], true) :=
      scanFields_cons_hit_create _ "p" [("n1", JVal.str "v1")] [] rfl rfl
    have h5A : Old.scanFields ⟨some "n3", "v3", Attr.str "g", Attr.str "p"⟩
        [("na", JVal.str "va"), ("p", JVal.obj [("n1", JVal.str "v1")])]
        = .ok ([("na", JVal.str "va"), ("p", JVal.obj [("n1", JVal.str "v1"),
            ("g", JVal.obj [("n3", JVal.str "v3")])])], true) :=
      scanFields_cons_miss_str _ "na" "va" [("p", JVal.obj [("n1", JVal.str "v1")])]
        [("p", JVal.obj [("n1", JVal.str "v1"), ("g", JVal.obj [("n3", JVal.str "v3")])])]
        true (by decide) h5pA
    have h5pB : Old.scanFields ⟨some "n3", "v3", Attr.str "g", Attr.str "p"⟩
        [("p", JVal.obj [("n2", JVal.str "v2")])]
        = .ok ([("p", JVal.obj [("n2", JVal.str "v2"),
            ("g", JVal.obj [("n3", JVal.str "v3")])])], true) :=
      scanFields_cons_hit_create _ "p" [("n2", JVal.str "v2")] [] rfl rfl
    have h5B : Old.scanFields ⟨some "n3", "v3", Attr.str "g", Attr.str "p"⟩
        [("nb", JVal.str "vb"), ("p", JVal.obj [("n2", JVal.str "v2")])]
        = .ok ([("nb", JVal.str "vb"), ("p", JVal.obj [("n2", JVal.str "v2"),
            ("g", JVal.obj [("n3", JVal.str "v3")])])], true) :=
      scanFields_cons_miss_str _ "nb" "vb" [("p", JVal.obj [("n2", JVal.str "v2")])]
        [("p", JVal.obj [("n2", JVal.str "v2"), ("g", JVal.obj [("n3", JVal.str "v3")])])]
        true (by decide) h5pB
    have h5Bc : Old.scanFields ⟨some "n3", "v3", Attr.str "g", Attr.str "p"⟩
        [("b", JVal.obj [("nb", JVal.str "vb"), ("p", JVal.obj [("n2", JVal.str "v2")])])]
        = .ok ([("b", JVal.obj [("nb", JVal.str "vb"), ("p", JVal.obj [("n2", JVal.str "v2"),
            ("g", JVal.obj [("n3", JVal.str "v3")])])])], true) :=
      scanFields_cons_miss_obj _ "b"
        [("nb", JVal.str "vb"), ("p", JVal.obj [("n2", JVal.str "v2")])] []
        [("nb", JVal.str "vb"), ("p", JVal.obj [("n2", JVal.str "v2"),
          ("g", JVal.obj [("n3", JVal.str "v3")])])] []
        true false (by decide) h5B (scanFields_nil _)
    have hscan5 : Old.scanFields ⟨some "n3", "v3", Attr.str "g", Attr.str "p"⟩
        [("a", JVal.obj [("na", JVal.str "va"), ("p", JVal.obj [("n1", JVal.str "v1")])]),
         ("b", JVal.obj [("nb", JVal.str "vb"), ("p", JVal.obj [("n2", JVal.str "v2")])])]
        = .ok ([("a", JVal.obj [("na", JVal.str "va"),
                  ("p", JVal.obj [("n1", JVal.str "v1"),
                    ("g", JVal.obj [("n3", JVal.str "v3")])])]),
                ("b", JVal.obj [("nb", JVal.str "vb"),
                  ("p", JVal.obj [("n2", JVal.str "v2"),
                    ("g", JVal.obj [("n3", JVal.str "v3")])])])], true) :=
      scanFields_cons_miss_obj _ "a"
        [("na", JVal.str "va"), ("p", JVal.obj [("n1", JVal.str "v1")])]
        [("b", JVal.obj [("nb", JVal.str "vb"), ("p", JVal.obj [("n2", JVal.str "v2")])])]
        [("na", JVal.str "va"), ("p", JVal.obj [("n1", JVal.str "v1"),
          ("g", JVal.obj [("n3", JVal.str "v3")])])]
        [("b", JVal.obj [("nb", JVal.str "vb"), ("p", JVal.obj [("n2", JVal.str "v2"),
          ("g", JVal.obj [("n3", JVal.str "v3")])])])]
        true true (by decide) h5A h5Bc
    have hadd3 := addElementToValues_pargroup _ _ _ _ (by decide) hscan3
    have hadd4 := addElementToValues_pargroup _ _ _ _ (by decide) hscan4
    have hadd5 := addElementToValues_pargroup _ _ _ _ (by decide) hscan5
    have hpe := passOnce_cons_added true ⟨some "n3", "v3", Attr.str "g", Attr.str "p"⟩ []
      _ _ _ [] false (by decide) hadd5 (passOnce_nil true _)
    have hpd := passOnce_cons_added true ⟨some "n2", "v2", Attr.str "p", Attr.str "b"⟩
      [some ⟨some "n3", "v3", Attr.str "g", Attr.str "p"⟩]
      _ _ _ [none] true (by decide) hadd4 hpe
    have hpc := passOnce_cons_added true ⟨some "n1", "v1", Attr.str "p", Attr.str "a"⟩
      [some ⟨some "n2", "v2", Attr.str "p", Attr.str "b"⟩,
       some ⟨some "n3", "v3", Attr.str "g", Attr.str "p"⟩]
      _ _ _ [none, none] true (by decide) hadd3 hpd
    have hpb := passOnce_cons_none true _ _ _ _ _ hpc
    have hp2 := passOnce_cons_none true _ _ _ _ _ hpb
    have hp1 : Old.passOnce false
        [some ⟨some "na", "va", Attr.str "a", Attr.absent⟩,
         some ⟨some "nb", "vb", Attr.str "b", Attr.absent⟩,
         some ⟨some "n1", "v1", Attr.str "p", Attr.str "a"⟩,
         some ⟨some "n2", "v2", Attr.str "p", Attr.str "b"⟩,
         some ⟨some "n3", "v3", Attr.str "g", Attr.str "p"⟩] []
        = .ok ([none, none,
            some ⟨some "n1", "v1", Attr.str "p", Attr.str "a"⟩,
            some ⟨some "n2", "v2", Attr.str "p", Attr.str "b"⟩,
            some ⟨some "n3", "v3", Attr.str "g", Attr.str "p"⟩],
            [("a", JVal.obj [("na", JVal.str "va")]),
             ("b", JVal.obj [("nb", JVal.str "vb")])], true) := rfl
    have hp3 : Old.passOnce true [none, none, none, none, none]
        [("a", JVal.obj [("na", JVal.str "va"),
            ("p", JVal.obj [("n1", JVal.str "v1"),
              ("g", JVal.obj [("n3", JVal.str "v3")])])]),
         ("b", JVal.obj [("nb", JVal.str "vb"),
            ("p", JVal.obj [("n2", JVal.str "v2"),
              ("g", JVal.obj [("n3", JVal.str "v3")])])])]
        = .ok ([none, none, none, none, none],
            [("a", JVal.obj [("na", JVal.str "va"),
                ("p", JVal.obj [("n1", JVal.str "v1"),
                  ("g", JVal.obj [("n3", JVal.str "v3")])])]),
             ("b", JVal.obj [("nb", JVal.str "vb"),
                ("p", JVal.obj [("n2", JVal.str "v2"),
                  ("g", JVal.obj [("n3", JVal.str "v3")])])])], false) := rfl
    have hloop : Old.loopOnElements false
        [some ⟨some "na", "va", Attr.str "a", Attr.absent⟩,
         some ⟨some "nb", "vb", Attr.str "b", Attr.absent⟩,
         some ⟨some "n1", "v1", Attr.str "p", Attr.str "a"⟩,
         some ⟨some "n2", "v2", Attr.str "p", Attr.str "b"⟩,
         some ⟨some "n3", "v3", Attr.str "g", Attr.str "p"⟩] []
        = .ok ([none, none, none, none, none],
            [("a", JVal.obj [("na", JVal.str "va"),
                ("p", JVal.obj [("n1", JVal.str "v1"),
                  ("g", JVal.obj [("n3", JVal.str "v3")])])]),
             ("b", JVal.obj [("nb", JVal.str "vb"),
                ("p", JVal.obj [("n2", JVal.str "v2"),
                  ("g", JVal.obj [("n3", JVal.str "v3")])])])], 3) :=
      loopOnElements_step_true _ _ _ _ _ _ _ _ hp1
        (loopOnElements_step_true _ _ _ _ _ _ _ _ hp2
          (loopOnElements_step_false _ _ _ _ _ hp3))
    exact gatherTheValues_eq
      [⟨some "na", "va", Attr.str "a", Attr.absent⟩,
       ⟨some "nb", "vb", Attr.str "b", Attr.absent⟩,
       ⟨some "n1", "v1", Attr.str "p", Attr.str "a"⟩,
       ⟨some "n2", "v2", Attr.str "p", Attr.str "b"⟩,
       ⟨some "n3", "v3", Attr.str "g", Attr.str "p"⟩] _ _ _ hloop
  · have hleaves : leavesV (JVal.obj
        [("a", JVal.obj [("na", JVal.str "va"),
            ("p", JVal.obj [("n1", JVal.str "v1"),
              ("g", JVal.obj [("n3", JVal.str "v3")])])]),
          ("b", JVal.obj [("nb", JVal.str "vb"),
            ("p", JVal.obj [("n2", JVal.str "v2"),
              ("g", JVal.obj [("n3", JVal.str "v3")])])])])
        = ["va", "v1", "v3", "vb", "v2", "v3"] := by
      simp [leavesV_obj_cons, leavesV_obj_nil, leavesV]
    rw [hleaves]
    decide

/-- Witness for C9 (amended): a concrete Strategy B run builds the tree
with single leaf "v", which is the `val` of the only record, and the
concrete one-record Strategy A tree keeps its value within the count
bound; both no-fabrication conjuncts are discharged on these inputs. -/
theorem c9_leaves_from_records_witness :
    Old.gatherTheValues [⟨some "x", "v", Attr.absent, Attr.absent⟩]
      = Except.ok ([("x", JVal.str "v")], []) ∧
    ((leavesV (.obj (Mod.groupValues [⟨"v", Attr.str "x", Attr.str "a:b"⟩]))).count "v"
        ≤ ([(⟨"v", Attr.str "x", Attr.str "a:b"⟩ : Mod.ValObj)].filter
            (fun vo => vo.value = "v")).length) ∧
    (∃ vo ∈ [(⟨"v", Attr.str "x", Attr.str "a:b"⟩ : Mod.ValObj)], vo.value = "v") ∧
    (∃ e ∈ [(⟨some "x", "v", Attr.absent, Attr.absent⟩ : Old.Elem)],
      Old.Elem.val e = "v") := by
  have hp1 : Old.passOnce false [some ⟨some "x", "v", Attr.absent, Attr.absent⟩] []
      = .ok ([none], [("x", JVal.str "v")], true) := rfl
  have hp2 : Old.passOnce true [none] [("x", JVal.str "v")]
      = .ok ([none], [("x", JVal.str "v")], false) := rfl
  have hloop : Old.loopOnElements false
      [some ⟨some "x", "v", Attr.absent, Attr.absent⟩] []
      = .ok ([none], [("x", JVal.str "v")], 2) :=
    loopOnElements_step_true false [some ⟨some "x", "v", Attr.absent, Attr.absent⟩]
      [none] [none] [] [("x", JVal.str "v")] [("x", JVal.str "v")] 1 hp1
      (loopOnElements_step_false true [none] [none]
        [("x", JVal.str "v")] [("x", JVal.str "v")] hp2)
  have hgather : Old.gatherTheValues [⟨some "x", "v", Attr.absent, Attr.absent⟩]
      = Except.ok ([("x", JVal.str "v")], []) :=
    gatherTheValues_eq [⟨some "x", "v", Attr.absent, Attr.absent⟩]
      [none] [("x", JVal.str "v")] 2 hloop
  have hmemA : "v" ∈ leavesV (.obj (Mod.groupValues
      [⟨"v", Attr.str "x", Attr.str "a:b"⟩])) := by
    rw [show Mod.groupValues [⟨"v", Attr.str "x", Attr.str "a:b"⟩]
        = [("a", JVal.obj [("b", JVal.obj [("x", JVal.str "v")])])] from by
      simp [Mod.groupValues, Mod.buildNestedObject, Mod.mergeObjects, setKey, lookupKey,
        truthyA, keyOfAttr, splitChar, splitCharAux]]
    simp [leavesV_obj_cons, leavesV_obj_nil, leavesV]
  have hmemB : "v" ∈ leavesV (.obj [("x", JVal.str "v")]) := by
    simp [leavesV_obj_cons, leavesV_obj_nil, leavesV]
  refine ⟨hgather, ?_, ?_, ?_⟩
  · exact (c9_leaves_from_records [⟨"v", Attr.str "x", Attr.str "a:b"⟩] "v"
      [⟨some "x", "v", Attr.absent, Attr.absent⟩] [("x", JVal.str "v")] [] hgather).1
  · exact (c9_leaves_from_records [⟨"v", Attr.str "x", Attr.str "a:b"⟩] "v"
      [⟨some "x", "v", Attr.absent, Attr.absent⟩] [("x", JVal.str "v")] []
      hgather).2.1 hmemA
  · exact (c9_leaves_from_records [⟨"v", Attr.str "x", Attr.str "a:b"⟩] "v"
      [⟨some "x", "v", Attr.absent, Attr.absent⟩] [("x", JVal.str "v")] []
      hgather).2.2 hmemB
